import Mathlib

/-!
Verification of the season/competition simulation engine of the football-sim
repository (`src/sim.py`) against its natural-language specification.

Modelling conventions (shallow embedding):
* Python `float` arithmetic is modelled by exact rational arithmetic (`ℚ`);
  all constants of the source (`0.35`, `1.45`, ...) are decimal literals that
  `ℚ` represents exactly.
* Python `dict`s that are built by insertion/overwrite are modelled as
  association lists with an in-place upsert (`dictSet`) and first-match lookup
  (`dictGet`), which reproduces CPython's insertion-ordered dict semantics.
* The global `random` module is modelled by an explicit generator interface
  `RNG σ` whose state `σ` is threaded through every stochastic operation in
  exactly the order the source consumes draws.  `_poisson_sample` is one
  operation of the interface (its rejection loop consumes a data-dependent
  number of raw draws; every claim treats the sampled value abstractly).
  `RNGValid` records the ranges Python guarantees for each primitive.
* Python `sorted`/`list.sort` (a stable sort by a key) is modelled by
  `List.insertionSort` with the key's total preorder, which computes the same
  (unique) stable result.
* `int(x)` (truncation toward zero) is `pyInt`, `round(x)` (banker's
  rounding) is `pyRound`.
-/

namespace FootballSim

/-- Python `int(x)` on a real value: truncation toward zero. -/
def pyInt (q : ℚ) : ℤ := if 0 ≤ q then q.floor else q.ceil

/-- Python `round(x)` on a real value: nearest integer, ties to even. -/
def pyRound (q : ℚ) : ℤ :=
  let f : ℤ := q.floor
  let r : ℚ := q - (f : ℚ)
  if r < 1/2 then f
  else if 1/2 < r then f + 1
  else if f % 2 = 0 then f else f + 1

/-- Integer clamp `max lo (min hi x)`, the `max(lo, min(hi, x))` pattern of the source. -/
def clampI (lo hi x : ℤ) : ℤ := max lo (min hi x)

theorem clampI_mem {lo hi : ℤ} (x : ℤ) (h : lo ≤ hi) :
    lo ≤ clampI lo hi x ∧ clampI lo hi x ≤ hi := by
  unfold clampI
  constructor
  · exact le_max_left _ _
  · exact max_le h (min_le_left _ _)

/-- Lookup with default in an association list (Python `dict.get(k, d)`). -/
def dictGet {κ β : Type} [DecidableEq κ] (l : List (κ × β)) (k : κ) (d : β) : β :=
  match l with
  | [] => d
  | (k', v) :: rest => if k = k' then v else dictGet rest k d

/-- Optional lookup in an association list (Python `k in dict` / `dict[k]`). -/
def dictFind {κ β : Type} [DecidableEq κ] (l : List (κ × β)) (k : κ) : Option β :=
  match l with
  | [] => none
  | (k', v) :: rest => if k = k' then some v else dictFind rest k

/-- Insertion-ordered upsert (`dict[k] = v`): replace the value of an existing
key in place, else append the new pair at the end. -/
def dictSet {κ β : Type} [DecidableEq κ] (l : List (κ × β)) (k : κ) (v : β) :
    List (κ × β) :=
  match l with
  | [] => [(k, v)]
  | (k', v') :: rest => if k = k' then (k, v) :: rest else (k', v') :: dictSet rest k v

/-- Consecutive pairs `(l[0],l[1]), (l[2],l[3]), ...` of a list
(the `for i in range(0, len, 2)` pairing). -/
def chunk2 {α : Type} : List α → List (α × α)
  | a :: b :: rest => (a, b) :: chunk2 rest
  | _ => []

theorem chunk2_length {α : Type} : ∀ l : List α, (chunk2 l).length = l.length / 2
  | [] => by simp [chunk2]
  | [_] => by simp [chunk2]
  | _ :: _ :: rest => by
      simp only [chunk2, List.length_cons, chunk2_length rest]
      omega

/-- Update the `i`-th element of a list in place (mutation of `table[i]`). -/
def listModify {α : Type} : List α → ℕ → (α → α) → List α
  | [], _, _ => []
  | a :: t, 0, f => f a :: t
  | a :: t, n + 1, f => a :: listModify t n f

theorem listModify_length {α : Type} :
    ∀ (l : List α) (i : ℕ) (f : α → α), (listModify l i f).length = l.length
  | [], _, _ => rfl
  | _ :: _, 0, _ => rfl
  | _ :: t, n + 1, f => by simp [listModify, listModify_length t n f]

theorem mem_listModify {α : Type} {P : α → Prop}
    (f : α → α) (hf : ∀ x, P x → P (f x)) :
    ∀ (l : List α) (i : ℕ), (∀ x ∈ l, P x) → ∀ y ∈ listModify l i f, P y := by
  intro l
  induction l with
  | nil => intro i _ y hy; cases hy
  | cons a t ih =>
    intro i hl y hy
    cases i with
    | zero =>
      rcases List.mem_cons.mp hy with rfl | hy2
      · exact hf a (hl a (List.mem_cons_self a t))
      · exact hl y (List.mem_cons_of_mem a hy2)
    | succ n =>
      rcases List.mem_cons.mp hy with rfl | hy2
      · exact hl _ (List.mem_cons_self _ _)
      · exact ih n (fun x hx => hl x (List.mem_cons_of_mem a hx)) y hy2

/-! ## The random-generator interface -/

/-- Interface to the shared pseudo-random generator (Python's global `random`
module).  Every operation deterministically transforms the generator state. -/
structure RNG (σ : Type) : Type 1 where
  /-- `random.random()`. -/
  rand : σ → ℚ × σ
  /-- `random.shuffle(l)` (in place in Python; functionally here). -/
  shuffle : {α : Type} → List α → σ → List α × σ
  /-- `random.randint(lo, hi)` (both ends inclusive). -/
  randint : ℤ → ℤ → σ → ℤ × σ
  /-- `random.uniform(lo, hi)`. -/
  uniform : ℚ → ℚ → σ → ℚ × σ
  /-- `_poisson_sample(lam)`: the inverse-CDF rejection loop of the source,
  abstracted as one generator operation returning the sampled count. -/
  poisson : ℚ → σ → ℕ × σ

/-- The output ranges Python guarantees for the generator primitives. -/
structure RNGValid {σ : Type} (R : RNG σ) : Prop where
  rand_mem : ∀ s, 0 ≤ (R.rand s).1 ∧ (R.rand s).1 < 1
  shuffle_perm : ∀ {α : Type} (l : List α) (s : σ), ((R.shuffle l s).1).Perm l
  randint_mem : ∀ lo hi s, lo ≤ hi →
    lo ≤ (R.randint lo hi s).1 ∧ (R.randint lo hi s).1 ≤ hi
  uniform_mem : ∀ lo hi s, lo ≤ hi →
    lo ≤ (R.uniform lo hi s).1 ∧ (R.uniform lo hi s).1 ≤ hi

/-- A trivial deterministic generator used to instantiate theorems at
concrete inputs. -/
def idRng : RNG Unit where
  rand := fun s => (0, s)
  shuffle := fun l s => (l, s)
  randint := fun lo _ s => (lo, s)
  uniform := fun lo _ s => (lo, s)
  poisson := fun _ s => (0, s)

theorem idRng_valid : RNGValid idRng where
  rand_mem := fun _ => by constructor <;> norm_num [idRng]
  shuffle_perm := fun l _ => List.Perm.refl l
  randint_mem := fun lo hi _ h => ⟨le_refl lo, h⟩
  uniform_mem := fun lo hi _ h => ⟨le_refl lo, h⟩

/-! ## Data model -/

/-- A team record (a Python dict); every attribute is optional, `t.get(k, d)`
supplies the defaults at each use site. -/
structure Team where
  teamId : Option ℤ := none
  teamName : Option String := none
  attack : Option ℤ := none
  midfield : Option ℤ := none
  defense : Option ℤ := none
  goalkeeping : Option ℤ := none
  culture : Option ℤ := none
  financial : Option ℤ := none
  reputationFactor : Option ℤ := none
  devRate : Option ℤ := none
deriving DecidableEq, Repr

instance : Inhabited Team := ⟨{}⟩

/-- `t.get("attack", 50)`. -/
def atkD (t : Team) : ℤ := t.attack.getD 50

/-- `t.get("midfield", 50)`. -/
def midD (t : Team) : ℤ := t.midfield.getD 50

/-- `t.get("defense", 50)`. -/
def dfnD (t : Team) : ℤ := t.defense.getD 50

/-- `t.get("goalkeeping", 50)`. -/
def gkD (t : Team) : ℤ := t.goalkeeping.getD 50

/-- `t.get("culture", 50)`. -/
def cultD (t : Team) : ℤ := t.culture.getD 50

/-- `t.get("teamName", "")`. -/
def nameD (t : Team) : String := t.teamName.getD ""

/-! ## Rating model and match simulator (`_team_rating`, `_simulate_match`) -/

/-- `_team_rating`: `0.35*atk + 0.35*mid + 0.2*dfn + 0.1*gk` with defaults 50.
The source memoizes this pure function in `_RATING_CACHE`; the cache is
semantically transparent and not modelled. -/
def teamRating (t : Team) : ℚ :=
  0.35 * (atkD t : ℚ) + 0.35 * (midD t : ℚ) + 0.2 * (dfnD t : ℚ) + 0.1 * (gkD t : ℚ)

/-- The Poisson rates `(lam_home, lam_away)` computed by `_simulate_match`
before sampling. -/
def matchRates (home away : Team) : ℚ × ℚ :=
  let rHome := teamRating home
  let rAway := teamRating away
  let ratingDiff := (rHome - rAway) / 9
  let ratingFactorHome := max 0.4 (min 1.8 (1 + ratingDiff))
  let ratingFactorAway := max 0.4 (min 1.8 (1 - ratingDiff))
  let cultureTerm := ((cultD home : ℚ) - (cultD away : ℚ)) / 200
  let homeAdv := max 1.02 (min 1.25 (1.08 + cultureTerm))
  let lamHome := max 0.2 (min 3.4 (1.45 * ratingFactorHome * homeAdv))
  let lamAway := max 0.1 (min 3.0 (1.45 * ratingFactorAway))
  (lamHome, lamAway)

/-- `_simulate_match(home, away, force_winner)`. -/
def simulateMatch {σ : Type} (R : RNG σ) (home away : Team) (forceWinner : Bool)
    (s : σ) : (ℕ × ℕ) × σ :=
  let rates := matchRates home away
  let ph := R.poisson rates.1 s
  let pa := R.poisson rates.2 ph.2
  let goalsHome := ph.1
  let goalsAway := pa.1
  if forceWinner ∧ goalsHome = goalsAway then
    let c := R.rand pa.2
    if c.1 < 0.5 then ((goalsHome + 1, goalsAway), c.2)
    else ((goalsHome, goalsAway + 1), c.2)
  else ((goalsHome, goalsAway), pa.2)

/-- Decisive matches never tie: with `force_winner` the source breaks an equal
score by incrementing one side. -/
theorem simulateMatch_force_ne {σ : Type} (R : RNG σ) (home away : Team) (s : σ) :
    ((simulateMatch R home away true s).1).1 ≠ ((simulateMatch R home away true s).1).2 := by
  unfold simulateMatch
  dsimp only
  split
  · rename_i h
    obtain ⟨-, heq⟩ := h
    split <;> dsimp only <;> omega
  · rename_i h
    dsimp only
    intro heq
    exact h ⟨rfl, heq⟩

/-! ## Specification-side match model (written from the spec's words, §4.1–4.2) -/

/-- Spec §4.2: `clamp(x, lo, hi)`. -/
def specClamp (x lo hi : ℚ) : ℚ := max lo (min hi x)

/-- Spec §4.1: "`rating(team) → float`: fixed weighted sum (attack 0.35,
midfield 0.35, defense 0.20, goalkeeping 0.10)", missing attributes default 50. -/
def specRating (t : Team) : ℚ :=
  0.35 * (atkD t : ℚ) + 0.35 * (midD t : ℚ) + 0.20 * (dfnD t : ℚ) + 0.10 * (gkD t : ℚ)

/-- Spec §4.2: `ratingDiff = (rating(home) - rating(away)) / 9`. -/
def specRatingDiff (home away : Team) : ℚ := (specRating home - specRating away) / 9

/-- Spec §4.2: `factorHome = clamp(1+ratingDiff, 0.4, 1.8)`. -/
def specFactorHome (home away : Team) : ℚ :=
  specClamp (1 + specRatingDiff home away) 0.4 1.8

/-- Spec §4.2: `factorAway = clamp(1-ratingDiff, 0.4, 1.8)`. -/
def specFactorAway (home away : Team) : ℚ :=
  specClamp (1 - specRatingDiff home away) 0.4 1.8

/-- Spec §4.2: `HOME_ADV = clamp(1.08 + (culture_home - culture_away)/200, 1.02, 1.25)`. -/
def specHomeAdv (home away : Team) : ℚ :=
  specClamp (1.08 + ((cultD home : ℚ) - (cultD away : ℚ)) / 200) 1.02 1.25

/-- Spec §4.2: `λ_home = clamp(1.45·factorHome·HOME_ADV, 0.2, 3.4)`. -/
def specLamHome (home away : Team) : ℚ :=
  specClamp (1.45 * specFactorHome home away * specHomeAdv home away) 0.2 3.4

/-- Spec §4.2: `λ_away = clamp(1.45·factorAway, 0.1, 3.0)`. -/
def specLamAway (home away : Team) : ℚ :=
  specClamp (1.45 * specFactorAway home away) 0.1 3.0

theorem specRating_eq (t : Team) : specRating t = teamRating t := by
  unfold specRating teamRating
  norm_num

theorem matchRates_eq_spec (home away : Team) :
    matchRates home away = (specLamHome home away, specLamAway home away) := by
  unfold matchRates specLamHome specLamAway specFactorHome specFactorAway
    specHomeAdv specRatingDiff specClamp
  simp only [specRating_eq]

/-- C3: the match simulator computes each team's rating as the fixed weighted
sum `0.35·attack + 0.35·midfield + 0.20·defense + 0.10·goalkeeping` (missing
attributes defaulting to 50), derives `ratingDiff`, the clamped factors, the
clamped home advantage, and draws the two goal counts from the Poisson sampler
at exactly the clamped rates `lam_home` and `lam_away` of the claim. -/
theorem match_simulator_follows_spec (home away : Team) :
    teamRating home = specRating home ∧
    matchRates home away = (specLamHome home away, specLamAway home away) ∧
    ∀ {σ : Type} (R : RNG σ) (s : σ),
      simulateMatch R home away false s =
        ((((R.poisson (specLamHome home away) s).1,
           (R.poisson (specLamAway home away) (R.poisson (specLamHome home away) s).2).1),
          (R.poisson (specLamAway home away) (R.poisson (specLamHome home away) s).2).2)) := by
  refine ⟨(specRating_eq home).symm, matchRates_eq_spec home away, ?_⟩
  intro σ R s
  unfold simulateMatch
  rw [matchRates_eq_spec home away]
  dsimp only
  rw [if_neg]
  rintro ⟨h1, -⟩
  exact absurd h1 (by simp)

/-! ## League engine (`simSeason`) -/

/-- A league-table row (the per-team dict built by `simSeason`; continental
group rows use the same shape but carry no `reputationFactor` key, hence the
`Option`). -/
structure Row where
  teamId : Option ℤ := none
  teamName : String := ""
  played : ℤ := 0
  wins : ℤ := 0
  draws : ℤ := 0
  losses : ℤ := 0
  gf : ℤ := 0
  ga : ℤ := 0
  gd : ℤ := 0
  points : ℤ := 0
  reputationFactor : Option ℤ := none
deriving DecidableEq, Repr

instance : Inhabited Row := ⟨{}⟩

/-- A recorded league fixture result. -/
structure MatchRec where
  home_idx : ℕ
  away_idx : ℕ
  home_team : String
  away_team : String
  home_goals : ℕ
  away_goals : ℕ
deriving DecidableEq, Repr

/-- `_build_fixtures`: every ordered pair `(i, j)` with `i ≠ j`, `i` outer. -/
def buildFixtures (n : ℕ) : List (ℕ × ℕ) :=
  (List.range n).flatMap fun i =>
    ((List.range n).filter (fun j => i != j)).map (fun j => (i, j))

/-- The initial table row `table[i]` of `simSeason`. -/
def initLeagueRow (i : ℕ) (t : Team) : Row :=
  { teamId := some (t.teamId.getD (i : ℤ)),
    teamName := t.teamName.getD ("Team " ++ toString i),
    reputationFactor := some (t.reputationFactor.getD 0) }

/-- The initial league table, one row per team in input order. -/
def initLeagueRows (teams : List Team) : List Row :=
  teams.enum.map fun p => initLeagueRow p.1 p.2

/-- The home side's row mutations for one fixture. -/
def updHome (hg ag : ℤ) (r : Row) : Row :=
  let r := { r with played := r.played + 1, gf := r.gf + hg, ga := r.ga + ag }
  if hg > ag then { r with wins := r.wins + 1, points := r.points + 3 }
  else if hg < ag then { r with losses := r.losses + 1 }
  else { r with draws := r.draws + 1, points := r.points + 1 }

/-- The away side's row mutations for one fixture. -/
def updAway (hg ag : ℤ) (r : Row) : Row :=
  let r := { r with played := r.played + 1, gf := r.gf + ag, ga := r.ga + hg }
  if hg > ag then { r with losses := r.losses + 1 }
  else if hg < ag then { r with wins := r.wins + 1, points := r.points + 3 }
  else { r with draws := r.draws + 1, points := r.points + 1 }

/-- The fixture loop of `simSeason`: simulate every `(home_idx, away_idx)`
pair, mutate both rows, and append a result record. -/
def playFixtures {σ : Type} (R : RNG σ) (teams : List Team) :
    List (ℕ × ℕ) → List Row → σ → List Row × List MatchRec × σ
  | [], tbl, s => (tbl, [], s)
  | (i, j) :: rest, tbl, s =>
    let home := teams.getD i default
    let away := teams.getD j default
    let g := simulateMatch R home away false s
    let hg : ℤ := (g.1.1 : ℤ)
    let ag : ℤ := (g.1.2 : ℤ)
    let tbl2 := listModify (listModify tbl i (updHome hg ag)) j (updAway hg ag)
    let rec0 : MatchRec :=
      { home_idx := i, away_idx := j,
        home_team := (tbl2.getD i default).teamName,
        away_team := (tbl2.getD j default).teamName,
        home_goals := g.1.1, away_goals := g.1.2 }
    let rr := playFixtures R teams rest tbl2 g.2
    (rr.1, rec0 :: rr.2.1, rr.2.2)

/-- The `table[i]["gd"] = gf - ga` pass. -/
def setGd (tbl : List Row) : List Row := tbl.map fun r => { r with gd := r.gf - r.ga }

/-- The league sort key `(-points, -gd, -gf, -reputationFactor)` of `simSeason`
(`r.get("reputationFactor", 0)`). -/
def leagueKey (r : Row) : ℤ × ℤ × ℤ × ℤ :=
  (-r.points, -r.gd, -r.gf, -(r.reputationFactor.getD 0))

/-- Lexicographic `≤` on 4-tuples, Python's tuple comparison as a total
preorder (a stable sort by a tuple key orders by this relation). -/
def lex4LE (p q : ℤ × ℤ × ℤ × ℤ) : Prop :=
  p.1 < q.1 ∨ p.1 = q.1 ∧ (p.2.1 < q.2.1 ∨ p.2.1 = q.2.1 ∧
    (p.2.2.1 < q.2.2.1 ∨ p.2.2.1 = q.2.2.1 ∧ p.2.2.2 ≤ q.2.2.2))

instance lex4LE.instDecidableRel : DecidableRel lex4LE := fun p q =>
  inferInstanceAs (Decidable (p.1 < q.1 ∨ p.1 = q.1 ∧ (p.2.1 < q.2.1 ∨ p.2.1 = q.2.1 ∧
    (p.2.2.1 < q.2.2.1 ∨ p.2.2.1 = q.2.2.1 ∧ p.2.2.2 ≤ q.2.2.2))))

instance lex4LE.instIsTotal : IsTotal (ℤ × ℤ × ℤ × ℤ) lex4LE :=
  ⟨fun p q => by unfold lex4LE; omega⟩

instance lex4LE.instIsTrans : IsTrans (ℤ × ℤ × ℤ × ℤ) lex4LE :=
  ⟨fun p q r h1 h2 => by unfold lex4LE at *; omega⟩

/-- The league table ordering: rows compared by `leagueKey`. -/
def rowLE (a b : Row) : Prop := lex4LE (leagueKey a) (leagueKey b)

instance rowLE.instDecidableRel : DecidableRel rowLE := fun a b =>
  inferInstanceAs (Decidable (lex4LE (leagueKey a) (leagueKey b)))

instance rowLE.instIsTotal : IsTotal Row rowLE :=
  ⟨fun a b => IsTotal.total (r := lex4LE) _ _⟩

instance rowLE.instIsTrans : IsTrans Row rowLE :=
  ⟨fun a b c h1 h2 => IsTrans.trans (r := lex4LE) _ _ _ h1 h2⟩

/-- The unsorted league table of one competition, after all fixtures and the
goal-difference pass, rows still in team input order. -/
def leaguePreTable {σ : Type} (R : RNG σ) (teams : List Team) (s : σ) : List Row :=
  setGd (playFixtures R teams (buildFixtures teams.length) (initLeagueRows teams) s).1

/-- A league result `{fixtures, table}`. -/
structure LeagueResult where
  fixtures : List MatchRec
  table : List Row
deriving DecidableEq, Repr

/-- `simSeason` for one competition's team list. -/
def simSeasonOne {σ : Type} (R : RNG σ) (teams0 : List Team) (s : σ) :
    LeagueResult × σ :=
  let teams := teams0
  let res := playFixtures R teams (buildFixtures teams.length) (initLeagueRows teams) s
  ({ fixtures := res.2.1, table := List.insertionSort rowLE (setGd res.1) }, res.2.2)

/-- `simSeason` over the competition dict (insertion-ordered association list). -/
def simSeason {σ : Type} (R : RNG σ) :
    List (ℤ × List Team) → σ → List (ℤ × LeagueResult) × σ
  | [], s => ([], s)
  | (k, ts) :: rest, s =>
    let r1 := simSeasonOne R ts s
    let rr := simSeason R rest r1.2
    ((k, r1.1) :: rr.1, rr.2)

theorem filter_bne_length {i : ℕ} :
    ∀ l : List ℕ, l.Nodup → i ∈ l → (l.filter (fun j => i != j)).length = l.length - 1 := by
  intro l
  induction l with
  | nil => intro _ h; cases h
  | cons a t ih =>
    intro hnd hm
    rcases List.mem_cons.mp hm with rfl | hmt
    · have hnotin : i ∉ t := (List.nodup_cons.mp hnd).1
      have : t.filter (fun j => i != j) = t :=
        List.filter_eq_self.mpr fun b hb => by
          simp only [bne_iff_ne, ne_eq]
          intro he; exact hnotin (he ▸ hb)
      simp [List.filter_cons, this]
    · have ha : (i != a) = true := by
        simp only [bne_iff_ne, ne_eq]
        intro he
        exact (List.nodup_cons.mp hnd).1 (he ▸ hmt)
      have ht : 1 ≤ t.length := List.length_pos.mpr (List.ne_nil_of_mem hmt)
      simp only [List.filter_cons, ha, if_true, List.length_cons,
        ih (List.nodup_cons.mp hnd).2 hmt]
      omega

theorem buildFixtures_length (n : ℕ) : (buildFixtures n).length = n * (n - 1) := by
  unfold buildFixtures
  rw [List.flatMap, List.length_flatten, List.map_map]
  have h1 : ((List.range n).map
      (List.length ∘ fun i => ((List.range n).filter (fun j => i != j)).map (fun j => (i, j)))) =
      (List.range n).map (fun _ => n - 1) := by
    apply List.map_congr_left
    intro a ha
    simp only [Function.comp_apply, List.length_map]
    rw [filter_bne_length (List.range n) (List.nodup_range n) ha, List.length_range]
  rw [h1, List.map_const', List.sum_replicate, List.length_range, smul_eq_mul]

theorem mem_buildFixtures {n i j : ℕ} (h : (i, j) ∈ buildFixtures n) :
    i < n ∧ j < n := by
  unfold buildFixtures at h
  rw [List.flatMap, List.mem_flatten] at h
  obtain ⟨l, hl, hmem⟩ := h
  rw [List.mem_map] at hl
  obtain ⟨a, ha, rfl⟩ := hl
  rw [List.mem_map] at hmem
  obtain ⟨b, hb, he⟩ := hmem
  cases he
  exact ⟨List.mem_range.mp ha, List.mem_range.mp (List.mem_filter.mp hb).1⟩

theorem updHome_played (hg ag : ℤ) (r : Row) : (updHome hg ag r).played = r.played + 1 := by
  unfold updHome
  dsimp only
  split
  · rfl
  · split <;> rfl

theorem updAway_played (hg ag : ℤ) (r : Row) : (updAway hg ag r).played = r.played + 1 := by
  unfold updAway
  dsimp only
  split
  · rfl
  · split <;> rfl

theorem sum_played_listModify {f : Row → Row} (hf : ∀ r, (f r).played = r.played + 1) :
    ∀ (l : List Row) (i : ℕ), i < l.length →
      ((listModify l i f).map Row.played).sum = ((l.map Row.played).sum) + 1 := by
  intro l
  induction l with
  | nil => intro i hi; simp at hi
  | cons a t ih =>
    intro i hi
    cases i with
    | zero => simp [listModify, hf a]; ring
    | succ n =>
      have hn : n < t.length := by simpa using hi
      simp only [listModify, List.map_cons, List.sum_cons, ih n hn]
      ring

theorem playFixtures_table_length {σ : Type} (R : RNG σ) (teams : List Team) :
    ∀ (fx : List (ℕ × ℕ)) (tbl : List Row) (s : σ),
      ((playFixtures R teams fx tbl s).1).length = tbl.length := by
  intro fx
  induction fx with
  | nil => intro tbl s; rfl
  | cons p rest ih =>
    intro tbl s
    obtain ⟨i, j⟩ := p
    simp only [playFixtures, ih, listModify_length]

theorem playFixtures_records_length {σ : Type} (R : RNG σ) (teams : List Team) :
    ∀ (fx : List (ℕ × ℕ)) (tbl : List Row) (s : σ),
      ((playFixtures R teams fx tbl s).2.1).length = fx.length := by
  intro fx
  induction fx with
  | nil => intro tbl s; rfl
  | cons p rest ih =>
    intro tbl s
    obtain ⟨i, j⟩ := p
    simp only [playFixtures, List.length_cons, ih]

theorem playFixtures_sum_played {σ : Type} (R : RNG σ) (teams : List Team) :
    ∀ (fx : List (ℕ × ℕ)) (tbl : List Row) (s : σ),
      (∀ p ∈ fx, p.1 < tbl.length ∧ p.2 < tbl.length) →
      (((playFixtures R teams fx tbl s).1).map Row.played).sum =
        ((tbl.map Row.played).sum) + 2 * fx.length := by
  intro fx
  induction fx with
  | nil => intro tbl s _; simp [playFixtures]
  | cons p rest ih =>
    intro tbl s hmem
    obtain ⟨i, j⟩ := p
    have hij := hmem (i, j) (List.mem_cons_self _ _)
    simp only [playFixtures]
    have key : ∀ (hg ag : ℤ) (s2 : σ),
        ((playFixtures R teams rest
            (listModify (listModify tbl i (updHome hg ag)) j (updAway hg ag)) s2).1.map
          Row.played).sum
        = ((tbl.map Row.played).sum) + 2 + 2 * rest.length := by
      intro hg ag s2
      rw [ih (listModify (listModify tbl i (updHome hg ag)) j (updAway hg ag)) s2
        (fun q hq => by
          simpa only [listModify_length] using hmem q (List.mem_cons_of_mem _ hq))]
      rw [sum_played_listModify (updAway_played hg ag) _ j
        (by simp only [listModify_length]; exact hij.2)]
      rw [sum_played_listModify (updHome_played hg ag) _ i hij.1]
      ring
    rw [key]
    simp only [List.length_cons]
    push_cast
    ring

theorem setGd_map_played (tbl : List Row) :
    ((setGd tbl).map Row.played) = tbl.map Row.played := by
  unfold setGd
  rw [List.map_map]
  rfl

theorem initLeagueRows_length (teams : List Team) :
    (initLeagueRows teams).length = teams.length := by
  unfold initLeagueRows
  rw [List.length_map, List.enum_length]

/-- C8: a league of `N` teams produces exactly `N·(N−1)` fixtures, and the
`played` column of the final table sums to twice the fixture count. -/
theorem league_fixture_and_played_counts {σ : Type} (R : RNG σ) (teams : List Team) (s : σ) :
    ((simSeasonOne R teams s).1.fixtures).length = teams.length * (teams.length - 1) ∧
    (((simSeasonOne R teams s).1.table).map Row.played).sum =
      2 * (((simSeasonOne R teams s).1.fixtures).length : ℤ) := by
  constructor
  · show ((playFixtures R teams (buildFixtures teams.length) (initLeagueRows teams) s).2.1).length
        = teams.length * (teams.length - 1)
    rw [playFixtures_records_length, buildFixtures_length]
  · show ((List.insertionSort rowLE
        (setGd (playFixtures R teams (buildFixtures teams.length) (initLeagueRows teams) s).1)).map
          Row.played).sum = _
    have hperm := (List.perm_insertionSort rowLE
      (setGd (playFixtures R teams (buildFixtures teams.length) (initLeagueRows teams) s).1)).map
        Row.played
    rw [hperm.sum_eq, setGd_map_played]
    rw [playFixtures_sum_played R teams _ _ s
      (by
        intro p hp
        rw [initLeagueRows_length]
        exact mem_buildFixtures hp)]
    show ((initLeagueRows teams).map Row.played).sum + 2 * ((buildFixtures teams.length).length : ℤ)
        = 2 * (((playFixtures R teams (buildFixtures teams.length) (initLeagueRows teams) s).2.1).length : ℤ)
    rw [playFixtures_records_length]
    have hz : ((initLeagueRows teams).map Row.played).sum = 0 := by
      have : ∀ x ∈ (initLeagueRows teams).map Row.played, x = 0 := by
        intro x hx
        rw [List.mem_map] at hx
        obtain ⟨r, hr, rfl⟩ := hx
        unfold initLeagueRows at hr
        rw [List.mem_map] at hr
        obtain ⟨p, _, rfl⟩ := hr
        rfl
      exact List.sum_eq_zero this
    rw [hz, zero_add]

theorem rowLE_of_key_eq {a b : Row} (h : leagueKey a = leagueKey b) : rowLE a b := by
  unfold rowLE
  rw [h]
  unfold lex4LE
  omega

/-- C4: the final league table is a permutation of the per-team rows, totally
ordered by the key `(-points, -goalDifference, -goalsFor, -reputationFactor)`,
and any two rows with equal keys keep their original input order (stability). -/
theorem league_table_order {σ : Type} (R : RNG σ) (teams : List Team) (s : σ) :
    ((simSeasonOne R teams s).1.table).Perm (leaguePreTable R teams s) ∧
    List.Sorted rowLE ((simSeasonOne R teams s).1.table) ∧
    ∀ a b : Row, leagueKey a = leagueKey b → List.Sublist [a, b] (leaguePreTable R teams s) →
      List.Sublist [a, b] ((simSeasonOne R teams s).1.table) := by
  refine ⟨List.perm_insertionSort rowLE _, List.sorted_insertionSort rowLE _, ?_⟩
  intro a b hk hsub
  exact List.sublist_insertionSort
    (List.pairwise_pair.mpr (rowLE_of_key_eq hk)) hsub

/-! ## Knockout engine (`simCups`) -/

/-- A recorded cup match. -/
structure CupMatch where
  home_team : String
  away_team : String
  home_goals : ℕ
  away_goals : ℕ
  winner : String
deriving DecidableEq, Repr

/-- A named bracket round. -/
structure CupRound where
  round_name : String
  «matches» : List CupMatch
deriving DecidableEq, Repr

/-- A cup result `{rounds, winner}`. -/
structure CupResult where
  rounds : List CupRound
  winner : Option String
deriving DecidableEq, Repr

/-- `is_power_of_two`: `x > 0 and (x & (x - 1)) == 0`. -/
def isPow2 (x : ℕ) : Prop := 0 < x ∧ x &&& (x - 1) = 0

instance isPow2.instDecidablePred : DecidablePred isPow2 := fun x =>
  inferInstanceAs (Decidable (0 < x ∧ x &&& (x - 1) = 0))

theorem isPow2_two_pow (k : ℕ) : isPow2 (2 ^ k) := by
  refine ⟨Nat.pos_pow_of_pos k (by norm_num), ?_⟩
  apply Nat.eq_of_testBit_eq
  intro i
  rw [Nat.testBit_land, Nat.zero_testBit, Nat.testBit_two_pow,
    Nat.testBit_two_pow_sub_one]
  by_cases h : k = i
  · subst h; simp
  · simp [h]

/-- The `while target * 2 <= n: target *= 2` loop (with explicit fuel). -/
def targetLoop (n : ℕ) : ℕ → ℕ → ℕ
  | 0, t => t
  | fuel + 1, t => if t * 2 ≤ n then targetLoop n fuel (t * 2) else t

theorem targetLoop_spec (n : ℕ) : ∀ fuel t : ℕ, 0 < t → t ≤ n → n ≤ fuel + t →
    0 < targetLoop n fuel t ∧ targetLoop n fuel t ≤ n ∧ n < 2 * targetLoop n fuel t ∧
    ∃ j, targetLoop n fuel t = t * 2 ^ j := by
  intro fuel
  induction fuel with
  | zero =>
    intro t ht htn hn
    have he : t = n := le_antisymm htn (by omega)
    subst he
    simp only [targetLoop]
    exact ⟨ht, le_refl _, by omega, 0, by ring⟩
  | succ fuel ih =>
    intro t ht htn hn
    simp only [targetLoop]
    by_cases h2 : t * 2 ≤ n
    · rw [if_pos h2]
      obtain ⟨a, b, c, j, hj⟩ := ih (t * 2) (by omega) (by omega) (by omega)
      exact ⟨a, b, c, j + 1, by rw [hj]; ring⟩
    · rw [if_neg h2]
      exact ⟨ht, htn, by omega, 0, by ring⟩

/-- Lexicographic `≤` on pairs (Python 2-tuple comparison). -/
def lex2LE (p q : ℤ × ℤ) : Prop := p.1 < q.1 ∨ p.1 = q.1 ∧ p.2 ≤ q.2

instance lex2LE.instDecidableRel : DecidableRel lex2LE := fun p q =>
  inferInstanceAs (Decidable (p.1 < q.1 ∨ p.1 = q.1 ∧ p.2 ≤ q.2))

/-- The knockout seeding key: `league_seed_info.get(teams[i].get("teamId"), (999, 999))`. -/
def seedKeyFor (seedInfo : List (Option ℤ × (ℤ × ℤ))) (teams : List Team) (i : ℕ) :
    ℤ × ℤ :=
  dictGet seedInfo (teams.getD i default).teamId (999, 999)

/-- The seed ordering on team indices. -/
def seedLE (seedInfo : List (Option ℤ × (ℤ × ℤ))) (teams : List Team) (i j : ℕ) : Prop :=
  lex2LE (seedKeyFor seedInfo teams i) (seedKeyFor seedInfo teams j)

instance seedLE.instDecidableRel (si : List (Option ℤ × (ℤ × ℤ))) (ts : List Team) :
    DecidableRel (seedLE si ts) := fun i j =>
  inferInstanceAs (Decidable (lex2LE (seedKeyFor si ts i) (seedKeyFor si ts j)))

/-- `league_seed_info`: `(tier, position)` per team id, built from all league
tables (later tables overwrite earlier entries for a duplicated id). -/
def buildSeedInfo (compTier : List (ℤ × ℤ)) (leagueResults : List (ℤ × LeagueResult)) :
    List (Option ℤ × (ℤ × ℤ)) :=
  leagueResults.foldl
    (fun acc p =>
      (p.2.table.enum).foldl
        (fun a q => dictSet a q.2.teamId (dictGet compTier p.1 99, (q.1 : ℤ) + 1)) acc)
    []

/-- Bracket round names by size. -/
def roundNameFor (size : ℕ) : String :=
  if size = 2 then "Final"
  else if size = 4 then "Semi-finals"
  else if size = 8 then "Quarter-finals"
  else if size = 16 then "Round of 16"
  else if size = 32 then "Round of 32"
  else "Round of " ++ toString size

/-- Play a list of index pairs as decisive matches, returning the match
records and the winning indices in order. -/
def playPairs {σ : Type} (R : RNG σ) (teams : List Team) :
    List (ℕ × ℕ) → σ → List CupMatch × List ℕ × σ
  | [], s => ([], [], s)
  | (a, b) :: rest, s =>
    let home := teams.getD a default
    let away := teams.getD b default
    let g := simulateMatch R home away true s
    let w := if g.1.1 > g.1.2 then a else b
    let rr := playPairs R teams rest g.2
    ({ home_team := nameD home, away_team := nameD away,
       home_goals := g.1.1, away_goals := g.1.2,
       winner := nameD (teams.getD w default) } :: rr.1, w :: rr.2.1, rr.2.2)

/-- The bye/pair split of one main-draw round: an odd survivor count pops the
last element as a bye, then pairs are popped from the end of the list. -/
def splitBye (l : List ℕ) : List ℕ × List ℕ :=
  if l.length % 2 = 1 then (l.getLast?.toList, l.dropLast) else ([], l)

theorem splitBye_sizes (l : List ℕ) :
    ((splitBye l).1).length + (chunk2 ((splitBye l).2).reverse).length =
      (l.length + 1) / 2 := by
  unfold splitBye
  by_cases h : l.length % 2 = 1
  · have hne : l ≠ [] := by
      intro he; subst he; simp at h
    rw [if_pos h]
    have : l.getLast?.toList.length = 1 := by
      obtain ⟨a, ha⟩ := Option.isSome_iff_exists.mp (List.getLast?_isSome.mpr hne)
      rw [ha]; rfl
    simp only [this, chunk2_length, List.length_reverse, List.length_dropLast]
    omega
  · rw [if_neg h]
    simp only [List.length_nil, chunk2_length, List.length_reverse]
    omega

/-- The `while len(current_indices) > 1` loop of `simCups`: shuffle, pop an
odd bye, pop pairs from the end, play a decisive round, recurse on the
bye-plus-winners.  `fuel ≥ current length` bounds the iteration count. -/
def cupLoop {σ : Type} (R : RNG σ) (teams : List Team) :
    ℕ → List ℕ → σ → List CupRound × List ℕ × σ
  | 0, cur, s => ([], cur, s)
  | fuel + 1, cur, s =>
    if cur.length ≤ 1 then ([], cur, s)
    else
      let sh := R.shuffle cur s
      let byes := (splitBye sh.1).1
      let pairs := chunk2 ((splitBye sh.1).2).reverse
      let size := pairs.length * 2 + byes.length
      let pr := playPairs R teams pairs sh.2
      let next := byes ++ pr.2.1
      let rec0 := cupLoop R teams fuel next pr.2.2
      ({ round_name := roundNameFor size, «matches» := pr.1 } :: rec0.1, rec0.2)

/-- `teams[current_indices[0]].get("teamName", "") if current_indices else None`. -/
def winnerName (teams : List Team) : List ℕ → Option String
  | i :: _ => some (nameD (teams.getD i default))
  | [] => none

/-- The sorted seed indices of a cup (`seed_indices.sort(key=...)`, a stable
ascending sort by `(tier, position)`). -/
def cupSeeds (seedInfo : List (Option ℤ × (ℤ × ℤ))) (teams : List Team) : List ℕ :=
  List.insertionSort (seedLE seedInfo teams) (List.range teams.length)

/-- The power-of-two branch of `simCups`: the main draw runs directly on the
seeded indices. -/
def simCupsOnePow {σ : Type} (R : RNG σ) (seedInfo : List (Option ℤ × (ℤ × ℤ)))
    (teams : List Team) (s : σ) : CupResult × σ :=
  let r := cupLoop R teams teams.length (cupSeeds seedInfo teams) s
  ({ rounds := r.1, winner := winnerName teams r.2.1 }, r.2.2)

/-- The non-power-of-two branch of `simCups`: the `2·(n - target)` lowest
seeds play a shuffled decisive Qualifying Round whose winners join the
remaining top seeds for the main draw. -/
def simCupsOneQual {σ : Type} (R : RNG σ) (seedInfo : List (Option ℤ × (ℤ × ℤ)))
    (teams : List Team) (s : σ) : CupResult × σ :=
  let n := teams.length
  let target := targetLoop n n 1
  let numElim := n - target
  let numQ := 2 * numElim
  let qCand := (cupSeeds seedInfo teams).drop (n - numQ)
  let mains := (cupSeeds seedInfo teams).take (n - numQ)
  let qs := R.shuffle qCand s
  let qp := playPairs R teams (chunk2 qs.1) qs.2
  let current := mains ++ qp.2.1
  let r := cupLoop R teams n current qp.2.2
  ({ rounds := { round_name := "Qualifying Round", «matches» := qp.1 } :: r.1,
     winner := winnerName teams r.2.1 }, r.2.2)

/-- `simCups` for one cup's team list. -/
def simCupsOne {σ : Type} (R : RNG σ) (seedInfo : List (Option ℤ × (ℤ × ℤ)))
    (teams : List Team) (s : σ) : CupResult × σ :=
  if teams.isEmpty then ({ rounds := [], winner := none }, s)
  else if isPow2 teams.length then simCupsOnePow R seedInfo teams s
  else simCupsOneQual R seedInfo teams s

/-- `simCups` over the cup dict, seeding from the league results and tiers. -/
def simCups {σ : Type} (R : RNG σ) (compTier : List (ℤ × ℤ))
    (leagueResults : List (ℤ × LeagueResult)) :
    List (ℤ × List Team) → σ → List (ℤ × CupResult) × σ
  | [], s => ([], s)
  | (k, ts) :: rest, s =>
    let r1 := simCupsOne R (buildSeedInfo compTier leagueResults) ts s
    let rr := simCups R compTier leagueResults rest r1.2
    ((k, r1.1) :: rr.1, rr.2)

theorem playPairs_winners_length {σ : Type} (R : RNG σ) (teams : List Team) :
    ∀ (ps : List (ℕ × ℕ)) (s : σ), ((playPairs R teams ps s).2.1).length = ps.length := by
  intro ps
  induction ps with
  | nil => intro s; rfl
  | cons p rest ih =>
    intro s
    obtain ⟨a, b⟩ := p
    simp only [playPairs, List.length_cons, ih]

theorem playPairs_decisive {σ : Type} (R : RNG σ) (teams : List Team) :
    ∀ (ps : List (ℕ × ℕ)) (s : σ), ∀ m ∈ (playPairs R teams ps s).1,
      m.home_goals ≠ m.away_goals := by
  intro ps
  induction ps with
  | nil => intro s m hm; cases hm
  | cons p rest ih =>
    intro s m hm
    obtain ⟨a, b⟩ := p
    simp only [playPairs] at hm
    rcases List.mem_cons.mp hm with rfl | hm2
    · exact simulateMatch_force_ne R _ _ s
    · exact ih _ m hm2

theorem cupLoop_spec {σ : Type} {R : RNG σ} (hR : RNGValid R) (teams : List Team) :
    ∀ (fuel : ℕ) (cur : List ℕ) (s : σ), 1 ≤ cur.length → cur.length ≤ fuel →
      ((cupLoop R teams fuel cur s).1).length = Nat.clog 2 cur.length ∧
      ((cupLoop R teams fuel cur s).2.1).length = 1 := by
  intro fuel
  induction fuel with
  | zero =>
    intro cur s h1 h2
    exact absurd (h1.trans h2) (by norm_num)
  | succ fuel ih =>
    intro cur s h1 h2
    by_cases hle : cur.length ≤ 1
    · have hl1 : cur.length = 1 := le_antisymm hle h1
      simp only [cupLoop, if_pos hle]
      exact ⟨by simp [hl1], hl1⟩
    · simp only [cupLoop, if_neg hle]
      have h2le : 2 ≤ cur.length := by omega
      have hshuf : ((R.shuffle cur s).1).length = cur.length :=
        (hR.shuffle_perm cur s).length_eq
      have hnextlen :
          (((splitBye (R.shuffle cur s).1).1) ++
            (playPairs R teams (chunk2 ((splitBye (R.shuffle cur s).1).2).reverse)
              (R.shuffle cur s).2).2.1).length = (cur.length + 1) / 2 := by
        rw [List.length_append, playPairs_winners_length, splitBye_sizes, hshuf]
      obtain ⟨ih1, ih2⟩ := ih
        ((splitBye (R.shuffle cur s).1).1 ++
           (playPairs R teams (chunk2 ((splitBye (R.shuffle cur s).1).2).reverse)
             (R.shuffle cur s).2).2.1)
        ((playPairs R teams (chunk2 ((splitBye (R.shuffle cur s).1).2).reverse)
             (R.shuffle cur s).2).2.2)
        (le_trans (by omega) (le_of_eq hnextlen.symm))
        (le_trans (le_of_eq hnextlen) (by omega))
      refine ⟨?_, ih2⟩
      rw [List.length_cons, ih1, hnextlen]
      rw [Nat.clog_of_two_le (by norm_num) h2le]
      have hdiv : (cur.length + 2 - 1) / 2 = (cur.length + 1) / 2 := by omega
      rw [hdiv]

theorem winnerName_isSome {teams : List Team} {fin : List ℕ} (h : fin.length = 1) :
    (winnerName teams fin).isSome := by
  cases fin with
  | nil => simp at h
  | cons i t => rfl

theorem cupLoop_decisive {σ : Type} (R : RNG σ) (teams : List Team) :
    ∀ (fuel : ℕ) (cur : List ℕ) (s : σ), ∀ rd ∈ (cupLoop R teams fuel cur s).1,
      ∀ m ∈ rd.«matches», m.home_goals ≠ m.away_goals := by
  intro fuel
  induction fuel with
  | zero => intro cur s rd hrd; cases hrd
  | succ fuel ih =>
    intro cur s rd hrd
    by_cases hle : cur.length ≤ 1
    · simp only [cupLoop, if_pos hle] at hrd
      cases hrd
    · simp only [cupLoop, if_neg hle] at hrd
      rcases List.mem_cons.mp hrd with rfl | hrd2
      · exact playPairs_decisive R teams _ _
      · exact ih _ _ rd hrd2

theorem simCupsOne_decisive {σ : Type} (R : RNG σ)
    (seedInfo : List (Option ℤ × (ℤ × ℤ))) (teams : List Team) (s : σ) :
    ∀ rd ∈ (simCupsOne R seedInfo teams s).1.rounds, ∀ m ∈ rd.«matches»,
      m.home_goals ≠ m.away_goals := by
  intro rd hrd
  unfold simCupsOne at hrd
  by_cases hemp : teams.isEmpty
  · rw [if_pos hemp] at hrd
    cases hrd
  · rw [if_neg hemp] at hrd
    by_cases hp : isPow2 teams.length
    · rw [if_pos hp] at hrd
      unfold simCupsOnePow at hrd
      exact cupLoop_decisive R teams _ _ _ rd hrd
    · rw [if_neg hp] at hrd
      unfold simCupsOneQual at hrd
      rcases List.mem_cons.mp hrd with rfl | hrd2
      · exact playPairs_decisive R teams _ _
      · exact cupLoop_decisive R teams _ _ _ rd hrd2

theorem cupSeeds_length (seedInfo : List (Option ℤ × (ℤ × ℤ))) (teams : List Team) :
    (cupSeeds seedInfo teams).length = teams.length := by
  unfold cupSeeds
  rw [(List.perm_insertionSort _ _).length_eq, List.length_range]

theorem simCupsOnePow_spec {σ : Type} {R : RNG σ} (hR : RNGValid R)
    (seedInfo : List (Option ℤ × (ℤ × ℤ))) (teams : List Team) (s : σ)
    (hne : teams ≠ []) :
    ((simCupsOnePow R seedInfo teams s).1.rounds).length = Nat.clog 2 teams.length ∧
    ((simCupsOnePow R seedInfo teams s).1.winner).isSome := by
  unfold simCupsOnePow
  have hpos : 1 ≤ teams.length := List.length_pos.mpr hne
  obtain ⟨l1, l2⟩ := cupLoop_spec hR teams teams.length (cupSeeds seedInfo teams) s
    (by rw [cupSeeds_length]; exact hpos) (le_of_eq (cupSeeds_length _ _))
  exact ⟨by dsimp only; rw [l1, cupSeeds_length], by dsimp only; exact winnerName_isSome l2⟩

theorem simCupsOneQual_spec {σ : Type} {R : RNG σ} (hR : RNGValid R)
    (seedInfo : List (Option ℤ × (ℤ × ℤ))) (teams : List Team) (s : σ)
    (hne : teams ≠ []) (hnp : ¬ isPow2 teams.length) :
    ((simCupsOneQual R seedInfo teams s).1.rounds).length = Nat.clog 2 teams.length ∧
    ((simCupsOneQual R seedInfo teams s).1.winner).isSome ∧
    (((simCupsOneQual R seedInfo teams s).1.rounds).head?).map CupRound.round_name =
      some "Qualifying Round" := by
  have hn1 : 1 ≤ teams.length := List.length_pos.mpr hne
  obtain ⟨htpos, htle, htlt, j, hj⟩ :=
    targetLoop_spec teams.length teams.length 1 one_pos hn1 (by omega)
  rw [one_mul] at hj
  have htne : targetLoop teams.length teams.length 1 ≠ teams.length := by
    intro he
    apply hnp
    rw [← he, hj]
    exact isPow2_two_pow j
  unfold simCupsOneQual
  dsimp only
  set target := targetLoop teams.length teams.length 1 with hts
  set qCand := (cupSeeds seedInfo teams).drop
    (teams.length - 2 * (teams.length - target)) with hqc
  set mains := (cupSeeds seedInfo teams).take
    (teams.length - 2 * (teams.length - target)) with hmn
  set qs := R.shuffle qCand s with hqs
  set qp := playPairs R teams (chunk2 qs.1) qs.2 with hqp
  set current := mains ++ qp.2.1 with hcur
  have hqclen : qCand.length = 2 * (teams.length - target) := by
    rw [hqc, List.length_drop, cupSeeds_length]
    omega
  have hqslen : qs.1.length = qCand.length := (hR.shuffle_perm qCand s).length_eq
  have hqplen : qp.2.1.length = teams.length - target := by
    rw [hqp, playPairs_winners_length, chunk2_length, hqslen, hqclen]
    omega
  have hmainslen : mains.length = teams.length - 2 * (teams.length - target) := by
    rw [hmn, List.length_take, cupSeeds_length, min_eq_left (by omega)]
  have hcurlen : current.length = target := by
    rw [hcur, List.length_append, hmainslen, hqplen]
    omega
  obtain ⟨l1, l2⟩ := cupLoop_spec hR teams teams.length current qp.2.2
    (by omega) (by omega)
  have hclog : Nat.clog 2 teams.length = j + 1 := by
    have hlt : 2 ^ j < teams.length := by
      have h1 : target < teams.length := lt_of_le_of_ne htle htne
      rw [hj] at h1
      exact h1
    have hle2 : teams.length ≤ 2 ^ (j + 1) := by
      rw [pow_succ]
      rw [hj] at htlt
      omega
    apply le_antisymm
    · exact (Nat.le_pow_iff_clog_le one_lt_two).mp hle2
    · by_contra hcon
      push_neg at hcon
      have : teams.length ≤ 2 ^ j := (Nat.le_pow_iff_clog_le one_lt_two).mpr (by omega)
      omega
  refine ⟨?_, winnerName_isSome l2, rfl⟩
  rw [List.length_cons, l1, hcurlen, hj, Nat.clog_pow 2 j (by norm_num), hclog]

/-- C1 (amended): for every nonempty knockout field of `N` teams, exactly one
winner is produced, and the total number of rounds equals `⌈log₂ N⌉`; when `N`
is not a power of two, one of those rounds is the extra Qualifying Round, which
comes first (so the main draw contributes `⌊log₂ N⌋` rounds, not `⌈log₂ N⌉`). -/
theorem cup_winner_and_rounds {σ : Type} (R : RNG σ) (hR : RNGValid R)
    (seedInfo : List (Option ℤ × (ℤ × ℤ))) (teams : List Team) (s : σ)
    (hne : teams ≠ []) :
    ((simCupsOne R seedInfo teams s).1.winner).isSome ∧
    ((simCupsOne R seedInfo teams s).1.rounds).length = Nat.clog 2 teams.length ∧
    (¬ isPow2 teams.length →
      (((simCupsOne R seedInfo teams s).1.rounds).head?).map CupRound.round_name =
        some "Qualifying Round") := by
  have hemp : teams.isEmpty = false := by
    cases teams
    · exact absurd rfl hne
    · rfl
  unfold simCupsOne
  rw [hemp]
  rw [if_neg Bool.false_ne_true]
  by_cases hp : isPow2 teams.length
  · rw [if_pos hp]
    obtain ⟨r1, r2⟩ := simCupsOnePow_spec hR seedInfo teams s hne
    exact ⟨r2, r1, fun hnp => absurd hp hnp⟩
  · rw [if_neg hp]
    obtain ⟨r1, r2, r3⟩ := simCupsOneQual_spec hR seedInfo teams s hne hp
    exact ⟨r2, r1, fun _ => r3⟩

/-- A concrete team record for witness computations. -/
def mkTeam (i : ℤ) (nm : String) : Team :=
  { teamId := some i, teamName := some nm, attack := some 70, midfield := some 70,
    defense := some 70, goalkeeping := some 70, culture := some 50,
    financial := some 50, reputationFactor := some 50, devRate := some 5 }

/-- Six concrete entrant teams. -/
def teamsSix : List Team :=
  [mkTeam 1 "T1", mkTeam 2 "T2", mkTeam 3 "T3",
   mkTeam 4 "T4", mkTeam 5 "T5", mkTeam 6 "T6"]

theorem clog_two_six : Nat.clog 2 6 = 3 := by
  rw [Nat.clog_of_two_le (by norm_num) (by norm_num)]
  norm_num
  rw [Nat.clog_of_two_le (by norm_num) (by norm_num)]
  norm_num
  rw [Nat.clog_of_two_le (by norm_num) (by norm_num)]
  norm_num

/-- C1 counterexample: a knockout with 6 entrants (not a power of two)
produces 3 rounds — one Qualifying Round plus a 2-round main draw — not
`⌈log₂ 6⌉ + 1 = 4` as the claim's round count states. -/
theorem cup_round_count_counterexample :
    ¬ isPow2 teamsSix.length ∧
    ((simCupsOne idRng [] teamsSix ()).1.rounds).length = 3 ∧
    Nat.clog 2 teamsSix.length + 1 = 4 ∧
    ((simCupsOne idRng [] teamsSix ()).1.rounds).length ≠
      Nat.clog 2 teamsSix.length + 1 := by
  have h6 : teamsSix.length = 6 := rfl
  have hc : Nat.clog 2 teamsSix.length = 3 := by rw [h6, clog_two_six]
  refine ⟨by decide, by decide, by rw [hc], ?_⟩
  rw [hc]
  decide

/-- C1 witness: the amended theorem instantiated on the concrete 6-team cup
with the trivial generator. -/
theorem cup_winner_and_rounds_witness :
    ((simCupsOne idRng [] teamsSix ()).1.winner).isSome ∧
    ((simCupsOne idRng [] teamsSix ()).1.rounds).length = Nat.clog 2 teamsSix.length ∧
    (((simCupsOne idRng [] teamsSix ()).1.rounds).head?).map CupRound.round_name =
      some "Qualifying Round" := by
  obtain ⟨w1, w2, w3⟩ :=
    cup_winner_and_rounds idRng idRng_valid [] teamsSix () (by decide)
  exact ⟨w1, w2, w3 (by decide)⟩

/-! ## Continental engine (`simContinental`) -/

/-- Lexicographic `≤` on 3-tuples. -/
def lex3LE (p q : ℤ × ℤ × ℤ) : Prop :=
  p.1 < q.1 ∨ p.1 = q.1 ∧ (p.2.1 < q.2.1 ∨ p.2.1 = q.2.1 ∧ p.2.2 ≤ q.2.2)

instance lex3LE.instDecidableRel : DecidableRel lex3LE := fun p q =>
  inferInstanceAs (Decidable (p.1 < q.1 ∨ p.1 = q.1 ∧
    (p.2.1 < q.2.1 ∨ p.2.1 = q.2.1 ∧ p.2.2 ≤ q.2.2)))

instance lex3LE.instIsTotal : IsTotal (ℤ × ℤ × ℤ) lex3LE :=
  ⟨fun p q => by unfold lex3LE; omega⟩

instance lex3LE.instIsTrans : IsTrans (ℤ × ℤ × ℤ) lex3LE :=
  ⟨fun p q r h1 h2 => by unfold lex3LE at *; omega⟩

/-- The continental group sort key `(-points, -gd, -gf)` (no reputation
component). -/
def contKey (r : Row) : ℤ × ℤ × ℤ := (-r.points, -r.gd, -r.gf)

/-- The continental group-table ordering. -/
def contRowLE (a b : Row) : Prop := lex3LE (contKey a) (contKey b)

instance contRowLE.instDecidableRel : DecidableRel contRowLE := fun a b =>
  inferInstanceAs (Decidable (lex3LE (contKey a) (contKey b)))

instance contRowLE.instIsTotal : IsTotal Row contRowLE :=
  ⟨fun a b => IsTotal.total (r := lex3LE) _ _⟩

instance contRowLE.instIsTrans : IsTrans Row contRowLE :=
  ⟨fun a b c h1 h2 => IsTrans.trans (r := lex3LE) _ _ _ h1 h2⟩

/-- The initial continental group row (carries no `reputationFactor` key). -/
def initContRow (t : Team) : Row :=
  { teamId := t.teamId, teamName := t.teamName.getD "" }

/-- Group rows in group order. -/
def initContRows (gteams : List Team) : List Row := gteams.map initContRow

/-- The reputation-descending seeding order (`sorted(..., reverse=True)`,
stable). -/
def repDescLE (a b : Team) : Prop :=
  (b.reputationFactor.getD 0) ≤ (a.reputationFactor.getD 0)

instance repDescLE.instDecidableRel : DecidableRel repDescLE := fun a b =>
  inferInstanceAs (Decidable ((b.reputationFactor.getD 0) ≤ (a.reputationFactor.getD 0)))

/-- The modulo distribution of the reputation-sorted teams over
`len(teams) / 4` groups. -/
def contGroups (teams : List Team) : List (List Team) :=
  let numGroups := teams.length / 4
  (List.range numGroups).map fun g =>
    (((List.insertionSort repDescLE teams).enum).filter
      (fun p => p.1 % numGroups == g)).map Prod.snd

/-- One group's double round-robin and sorted table. -/
def playGroup {σ : Type} (R : RNG σ) (gteams : List Team) (s : σ) : List Row × σ :=
  let res := playFixtures R gteams (buildFixtures gteams.length) (initContRows gteams) s
  (List.insertionSort contRowLE (setGd res.1), res.2.2)

/-- All groups in order, threading the generator state. -/
def playGroups {σ : Type} (R : RNG σ) : List (List Team) → σ → List (List Row) × σ
  | [], s => ([], s)
  | g :: rest, s =>
    let r1 := playGroup R g s
    let rr := playGroups R rest r1.2
    (r1.1 :: rr.1, rr.2)

/-- `f"Group {chr(65 + group_idx)}"`. -/
def groupName (g : ℕ) : String := "Group " ++ String.mk [Char.ofNat (65 + g)]

/-- A named group-stage result. -/
structure GroupResult where
  group_name : String
  table : List Row
deriving DecidableEq, Repr

/-- The first team of the roster whose id equals the row's id (the
`for t in teams: if t.get("teamId") == tid: ... break` scan). -/
def findTeamById (teams : List Team) (tid : Option ℤ) : Option Team :=
  teams.find? fun t => t.teamId == tid

/-- The top-2 rows of every group table resolved back to team records. -/
def groupQualifiers (teams : List Team) (tables : List (List Row)) : List Team :=
  tables.flatMap fun tbl => (tbl.take 2).filterMap fun row => findTeamById teams row.teamId

/-- Front-chunked pairs with an optional trailing bye
(`for i in range(0, len, 2)` with `i + 1 >= len` as the bye case). -/
def contPairs {α : Type} : List α → List (α × α) × Option α
  | [] => ([], none)
  | [a] => ([], some a)
  | a :: b :: rest =>
    let r := contPairs rest
    ((a, b) :: r.1, r.2)

/-- Play continental knockout pairs (decisive), returning match records and
winners in order. -/
def playTeamPairs {σ : Type} (R : RNG σ) : List (Team × Team) → σ → List CupMatch × List Team × σ
  | [], s => ([], [], s)
  | (h, a) :: rest, s =>
    let g := simulateMatch R h a true s
    let w := if g.1.1 > g.1.2 then h else a
    let rr := playTeamPairs R rest g.2
    ({ home_team := nameD h, away_team := nameD a,
       home_goals := g.1.1, away_goals := g.1.2, winner := nameD w } :: rr.1,
     w :: rr.2.1, rr.2.2)

/-- Continental bracket round names (no `Round of 32` special case). -/
def contRoundName (size : ℕ) : String :=
  if size = 2 then "Final"
  else if size = 4 then "Semi-finals"
  else if size = 8 then "Quarter-finals"
  else if size = 16 then "Round of 16"
  else "Round of " ++ toString size

/-- The continental knockout loop: shuffle, pair from the front (odd tail is a
bye appended last), decisive matches, recurse on the winners. -/
def contLoop {σ : Type} (R : RNG σ) : ℕ → List Team → σ → List CupRound × List Team × σ
  | 0, cur, s => ([], cur, s)
  | fuel + 1, cur, s =>
    if cur.length ≤ 1 then ([], cur, s)
    else
      let sh := R.shuffle cur s
      let pb := contPairs sh.1
      let pr := playTeamPairs R pb.1 sh.2
      let next := pr.2.1 ++ pb.2.toList
      let rec0 := contLoop R fuel next pr.2.2
      ({ round_name := contRoundName sh.1.length, «matches» := pr.1 } :: rec0.1, rec0.2)

/-- A continental result `{groups, rounds, winner}`. -/
structure ContResult where
  groups : List GroupResult
  rounds : List CupRound
  winner : Option String
deriving DecidableEq, Repr

/-- `simContinental` for one competition's team list. -/
def simContinentalOne {σ : Type} (R : RNG σ) (teams : List Team) (s : σ) :
    ContResult × σ :=
  if teams.isEmpty ∨ teams.length < 8 then
    ({ groups := [], rounds := [], winner := none }, s)
  else
    let gr := playGroups R (contGroups teams) s
    let groupResults := (gr.1.enum).map fun p =>
      { group_name := groupName p.1, table := p.2 : GroupResult }
    let qualifiers := groupQualifiers teams gr.1
    let kr := contLoop R qualifiers.length qualifiers gr.2
    ({ groups := groupResults, rounds := kr.1,
       winner := (kr.2.1.head?).map nameD }, kr.2.2)

/-- `simContinental` over the competition dict (the `league_results` argument
of the source is unused by its body). -/
def simContinental {σ : Type} (R : RNG σ) (leagueResults : List (ℤ × LeagueResult)) :
    List (ℤ × List Team) → σ → List (ℤ × ContResult) × σ
  | [], s => ([], s)
  | (k, ts) :: rest, s =>
    let r1 := simContinentalOne R ts s
    let rr := simContinental R leagueResults rest r1.2
    ((k, r1.1) :: rr.1, rr.2)

/-! ### Continental group tables match the league ordering (C6) -/

theorem orderedInsert_congr {α : Type} (r r' : α → α → Prop)
    [DecidableRel r] [DecidableRel r'] (x : α) :
    ∀ l : List α, (∀ b ∈ l, r x b ↔ r' x b) →
      List.orderedInsert r x l = List.orderedInsert r' x l := by
  intro l
  induction l with
  | nil => intro _; rfl
  | cons b t ih =>
    intro h
    simp only [List.orderedInsert]
    by_cases hb : r x b
    · rw [if_pos hb, if_pos ((h b (List.mem_cons_self _ _)).mp hb)]
    · rw [if_neg hb, if_neg (fun hc => hb ((h b (List.mem_cons_self _ _)).mpr hc))]
      rw [ih (fun c hc => h c (List.mem_cons_of_mem _ hc))]

theorem insertionSort_congr {α : Type} (r r' : α → α → Prop)
    [DecidableRel r] [DecidableRel r'] :
    ∀ l : List α, (∀ a ∈ l, ∀ b ∈ l, r a b ↔ r' a b) →
      List.insertionSort r l = List.insertionSort r' l := by
  intro l
  induction l with
  | nil => intro _; rfl
  | cons a t ih =>
    intro h
    simp only [List.insertionSort]
    rw [ih (fun c hc => fun d hd =>
      h c (List.mem_cons_of_mem _ hc) d (List.mem_cons_of_mem _ hd))]
    apply orderedInsert_congr
    intro b hb
    have hbt : b ∈ t := (List.perm_insertionSort r' t).mem_iff.mp hb
    exact h a (List.mem_cons_self _ _) b (List.mem_cons_of_mem _ hbt)

theorem contRow_le_iff {a b : Row} (ha : a.reputationFactor = none)
    (hb : b.reputationFactor = none) : rowLE a b ↔ contRowLE a b := by
  unfold rowLE contRowLE leagueKey contKey lex4LE lex3LE
  rw [ha, hb]
  simp only [Option.getD_none]
  omega

theorem updHome_rep (hg ag : ℤ) (r : Row) :
    (updHome hg ag r).reputationFactor = r.reputationFactor := by
  unfold updHome
  dsimp only
  split
  · rfl
  · split <;> rfl

theorem updAway_rep (hg ag : ℤ) (r : Row) :
    (updAway hg ag r).reputationFactor = r.reputationFactor := by
  unfold updAway
  dsimp only
  split
  · rfl
  · split <;> rfl

theorem playFixtures_rep_none {σ : Type} (R : RNG σ) (teams : List Team) :
    ∀ (fx : List (ℕ × ℕ)) (tbl : List Row) (s : σ),
      (∀ r ∈ tbl, Row.reputationFactor r = none) →
      ∀ r ∈ (playFixtures R teams fx tbl s).1, r.reputationFactor = none := by
  intro fx
  induction fx with
  | nil => intro tbl s h r hr; exact h r hr
  | cons p rest ih =>
    intro tbl s h r hr
    obtain ⟨i, j⟩ := p
    simp only [playFixtures] at hr
    refine ih _ _ ?_ r hr
    intro x hx
    refine @mem_listModify Row (fun y => Row.reputationFactor y = none)
      _ (fun y hy => ?_) _ j ?_ x hx
    · dsimp only
      rw [updAway_rep]
      exact hy
    · intro y hy
      refine @mem_listModify Row (fun z => Row.reputationFactor z = none)
        _ (fun z hz => ?_) _ i ?_ y hy
      · dsimp only
        rw [updHome_rep]
        exact hz
      · exact h

theorem playGroup_spec {σ : Type} (R : RNG σ) (gteams : List Team) (s : σ) :
    List.Sorted contRowLE (playGroup R gteams s).1 ∧
    ∀ r ∈ (playGroup R gteams s).1, r.reputationFactor = none := by
  constructor
  · exact List.sorted_insertionSort contRowLE _
  · intro r hr
    unfold playGroup at hr
    dsimp only at hr
    have hr2 := (List.perm_insertionSort contRowLE _).mem_iff.mp hr
    unfold setGd at hr2
    rw [List.mem_map] at hr2
    obtain ⟨r0, hr0, rfl⟩ := hr2
    show r0.reputationFactor = none
    refine playFixtures_rep_none R gteams _ _ s ?_ r0 hr0
    intro x hx
    unfold initContRows at hx
    rw [List.mem_map] at hx
    obtain ⟨t, _, rfl⟩ := hx
    rfl

theorem playGroups_spec {σ : Type} (R : RNG σ) :
    ∀ (gs : List (List Team)) (s : σ), ∀ tbl ∈ (playGroups R gs s).1,
      List.Sorted contRowLE tbl ∧ ∀ r ∈ tbl, r.reputationFactor = none := by
  intro gs
  induction gs with
  | nil => intro s tbl h; cases h
  | cons g rest ih =>
    intro s tbl h
    simp only [playGroups] at h
    rcases List.mem_cons.mp h with rfl | h2
    · exact playGroup_spec R g s
    · exact ih _ tbl h2

theorem snd_mem_of_mem_enumFrom {α : Type} :
    ∀ (l : List α) (n : ℕ) (p : ℕ × α), p ∈ List.enumFrom n l → p.2 ∈ l := by
  intro l
  induction l with
  | nil => intro n p h; cases h
  | cons a t ih =>
    intro n p h
    rcases List.mem_cons.mp h with rfl | h2
    · exact List.mem_cons_self _ _
    · exact List.mem_cons_of_mem _ (ih (n + 1) p h2)

/-- C6: every group table produced by the continental engine is sorted by the
league engine's ordering `rowLE`; moreover, on reputation-free rows — which is
every continental group table, since those rows carry no `reputationFactor`
key — the league table-sorting function and the continental group-sorting
function are one and the same. -/
theorem continental_group_sort_matches_league {σ : Type} (R : RNG σ)
    (teams : List Team) (s : σ) :
    (∀ g ∈ (simContinentalOne R teams s).1.groups,
      List.Sorted rowLE g.table ∧ ∀ r ∈ g.table, r.reputationFactor = none) ∧
    (∀ rows : List Row, (∀ r ∈ rows, r.reputationFactor = none) →
      List.insertionSort rowLE rows = List.insertionSort contRowLE rows) := by
  constructor
  · intro g hg
    unfold simContinentalOne at hg
    by_cases hsmall : teams.isEmpty ∨ teams.length < 8
    · rw [if_pos hsmall] at hg
      cases hg
    · rw [if_neg hsmall] at hg
      dsimp only at hg
      rw [List.mem_map] at hg
      obtain ⟨p, hp, rfl⟩ := hg
      have hmem : p.2 ∈ (playGroups R (contGroups teams) s).1 :=
        snd_mem_of_mem_enumFrom _ 0 p hp
      obtain ⟨hsorted, hrep⟩ := playGroups_spec R _ s p.2 hmem
      refine ⟨?_, hrep⟩
      show List.Sorted rowLE p.2
      exact List.Pairwise.imp_of_mem
        (fun {a b} hma hmb hab => (contRow_le_iff (hrep a hma) (hrep b hmb)).mpr hab)
        hsorted
  · intro rows hrows
    exact insertionSort_congr rowLE contRowLE rows
      (fun a ha b hb => contRow_le_iff (hrows a ha) (hrows b hb))

/-! ### No knockout match ties (C9) -/

theorem playTeamPairs_decisive {σ : Type} (R : RNG σ) :
    ∀ (ps : List (Team × Team)) (s : σ), ∀ m ∈ (playTeamPairs R ps s).1,
      m.home_goals ≠ m.away_goals := by
  intro ps
  induction ps with
  | nil => intro s m hm; cases hm
  | cons p rest ih =>
    intro s m hm
    obtain ⟨h, a⟩ := p
    simp only [playTeamPairs] at hm
    rcases List.mem_cons.mp hm with rfl | hm2
    · exact simulateMatch_force_ne R _ _ s
    · exact ih _ m hm2

theorem contLoop_decisive {σ : Type} (R : RNG σ) :
    ∀ (fuel : ℕ) (cur : List Team) (s : σ), ∀ rd ∈ (contLoop R fuel cur s).1,
      ∀ m ∈ rd.«matches», m.home_goals ≠ m.away_goals := by
  intro fuel
  induction fuel with
  | zero => intro cur s rd hrd; cases hrd
  | succ fuel ih =>
    intro cur s rd hrd
    by_cases hle : cur.length ≤ 1
    · simp only [contLoop, if_pos hle] at hrd
      cases hrd
    · simp only [contLoop, if_neg hle] at hrd
      rcases List.mem_cons.mp hrd with rfl | hrd2
      · exact playTeamPairs_decisive R _ _
      · exact ih _ _ rd hrd2

theorem simContinentalOne_decisive {σ : Type} (R : RNG σ) (teams : List Team) (s : σ) :
    ∀ rd ∈ (simContinentalOne R teams s).1.rounds, ∀ m ∈ rd.«matches»,
      m.home_goals ≠ m.away_goals := by
  intro rd hrd
  unfold simContinentalOne at hrd
  by_cases hsmall : teams.isEmpty ∨ teams.length < 8
  · rw [if_pos hsmall] at hrd
    cases hrd
  · rw [if_neg hsmall] at hrd
    exact contLoop_decisive R _ _ _ rd hrd

/-- C9: in every round produced by a knockout stage — the cup qualifying
round, the cup main-draw rounds, and the continental knockout rounds — every
recorded match has `home_goals ≠ away_goals`, for every generator. -/
theorem knockout_matches_never_tie {σ : Type} (R : RNG σ)
    (seedInfo : List (Option ℤ × (ℤ × ℤ))) (cupTeams contTeams : List Team)
    (s s2 : σ) :
    (∀ rd ∈ (simCupsOne R seedInfo cupTeams s).1.rounds, ∀ m ∈ rd.«matches»,
      m.home_goals ≠ m.away_goals) ∧
    (∀ rd ∈ (simContinentalOne R contTeams s2).1.rounds, ∀ m ∈ rd.«matches»,
      m.home_goals ≠ m.away_goals) :=
  ⟨simCupsOne_decisive R seedInfo cupTeams s, simContinentalOne_decisive R contTeams s2⟩

/-! ## Rating evolution (`adjust_team_ratings_after_season`) -/

/-- `t.get("financial", 50)`. -/
def finD (t : Team) : ℤ := t.financial.getD 50

/-- `t.get("devRate", 5)`. -/
def devD (t : Team) : ℤ := t.devRate.getD 5

/-- `t.get("reputationFactor", 50)` (the evolution step's default, unlike the
table rows' default 0). -/
def repD50 (t : Team) : ℤ := t.reputationFactor.getD 50

/-- One entry of the change report (the nested `deltas` dict is flattened into
the four `*_delta` fields). -/
structure ReportEntry where
  attack_delta : ℤ
  midfield_delta : ℤ
  defense_delta : ℤ
  goalkeeping_delta : ℤ
  final_pos : ℤ
  expected_pos : ℤ
  comp_id : ℤ
  finance_delta : ℤ
  reputation_delta : ℤ
  takeover : Bool
deriving DecidableEq, Repr

/-- The financial block of the per-team evolution step: prize-money term,
performance term, noise, then — before the clamp to `[-20, 30]` — an optional
takeover boost, and finally the floor at 20 and cap at 100. -/
def finUpdate {σ : Type} (R : RNG σ) (n fp ep oldFinance : ℤ) (s : σ) : ℤ × Bool × σ :=
  let performanceFactor : ℚ := ((ep - fp : ℤ) : ℚ) / ((max 1 (n - 1) : ℤ) : ℚ)
  let prizeFactor : ℚ := ((n - fp + 1 : ℤ) : ℚ) / (n : ℚ)
  let prizeMoneyChange : ℤ := pyInt (prizeFactor * 10)
  let finPerfChange : ℤ := pyInt (performanceFactor * 5)
  let rf := R.randint (-3) 3 s
  let ct := R.rand rf.2
  let tk := if ct.1 < 0.015 then
      (let rb := R.randint 20 40 ct.2
       (rb.1, true, rb.2))
    else ((0 : ℤ), false, ct.2)
  let finDelta : ℤ := clampI (-20) 30 (prizeMoneyChange + finPerfChange + rf.1 + tk.1)
  (clampI 20 100 (oldFinance + finDelta), tk.2.1, tk.2.2)

/-- The per-team body of `adjust_team_ratings_after_season`, given the team's
finish position `fp`, expected position `ep` and the league size `n`.  History
snapshots (which consume no generator draws) are not modelled. -/
def evolveTeam {σ : Type} (R : RNG σ) (compId n fp ep : ℤ) (t : Team) (s : σ) :
    Team × ReportEntry × σ :=
  let performanceFactor : ℚ := ((ep - fp : ℤ) : ℚ) / ((max 1 (n - 1) : ℤ) : ℚ)
  let dev : ℚ := (devD t : ℚ) / 10
  let finNorm : ℚ := (finD t : ℚ) / 100
  let baseChange : ℚ := 8.0 * performanceFactor + 3.0 * (dev - 0.5) + 2.0 * (finNorm - 0.5)
  let u1 := R.uniform (-2.0) 2.0 s
  let c1 := R.rand u1.2
  let amp := if c1.1 < 0.02 then
      (let u2 := R.uniform 1.5 2.0 c1.2
       ((baseChange + u1.1) * u2.1, u2.2))
    else (baseChange + u1.1, c1.2)
  let totalChange : ℚ := max (-10.0) (min 10.0 amp.1)
  let baseDelta : ℤ := pyRound totalChange
  let ra := R.randint (-1) 1 amp.2
  let newAtk : ℤ := clampI 50 99 (atkD t + clampI (-10) 10 (baseDelta + ra.1))
  let rm := R.randint (-1) 1 ra.2
  let newMid : ℤ := clampI 50 99 (midD t + clampI (-10) 10 (baseDelta + rm.1))
  let rdf := R.randint (-1) 1 rm.2
  let newDfn : ℤ := clampI 50 99 (dfnD t + clampI (-10) 10 (baseDelta + rdf.1))
  let cgk := R.rand rdf.2
  let gkRes := if cgk.1 < 0.20 then
      (let rg := R.randint (-2) 2 cgk.2
       (clampI 50 99 (gkD t + clampI (-8) 8 (pyInt ((baseDelta : ℚ) * 0.7 + (rg.1 : ℚ)))),
        rg.2))
    else (gkD t, cgk.2)
  let fu := finUpdate R n fp ep (finD t) gkRes.2
  let ru := R.uniform (-1.5) 1.5 fu.2.2
  let repDelta : ℤ := clampI (-8) 8 (pyInt (performanceFactor * 3 + ru.1))
  let newRep : ℤ := clampI 40 100 (repD50 t + repDelta)
  ({ t with
      attack := some newAtk
      midfield := some newMid
      defense := some newDfn
      goalkeeping := some gkRes.1
      financial := some fu.1
      reputationFactor := some newRep },
   { attack_delta := newAtk - atkD t, midfield_delta := newMid - midD t,
     defense_delta := newDfn - dfnD t, goalkeeping_delta := gkRes.1 - gkD t,
     final_pos := fp, expected_pos := ep, comp_id := compId,
     finance_delta := fu.1 - finD t, reputation_delta := newRep - repD50 t,
     takeover := fu.2.1 }, ru.2)

/-- Evolve every team of a league in order, collecting `(teamName, entry)`
pairs in processing order. -/
def evolveTeams {σ : Type} (R : RNG σ) (compId n : ℤ)
    (fpMap epMap : List (Option ℤ × ℤ)) :
    List Team → σ → List Team × List (Option String × ReportEntry) × σ
  | [], s => ([], [], s)
  | t :: rest, s =>
    let fp := dictGet fpMap t.teamId n
    let ep := dictGet epMap t.teamId n
    let r1 := evolveTeam R compId n fp ep t s
    let rr := evolveTeams R compId n fpMap epMap rest r1.2.2
    (r1.1 :: rr.1, (t.teamName, r1.2.1) :: rr.2.1, rr.2.2)

/-- The raw-attribute-sum strength order, descending and stable
(`sorted(..., reverse=True)`). -/
def strengthDescLE (a b : Team) : Prop :=
  (atkD b + midD b + dfnD b + gkD b) ≤ (atkD a + midD a + dfnD a + gkD a)

instance strengthDescLE.instDecidableRel : DecidableRel strengthDescLE := fun a b =>
  inferInstanceAs (Decidable ((atkD b + midD b + dfnD b + gkD b) ≤
    (atkD a + midD a + dfnD a + gkD a)))

/-- `{t.get("teamId"): i + 1}` over an ordered team list (later duplicates
overwrite). -/
def posMapOfTeams (l : List Team) : List (Option ℤ × ℤ) :=
  (l.enum).foldl (fun acc p => dictSet acc p.2.teamId ((p.1 : ℤ) + 1)) []

/-- `{row.get("teamId"): i + 1}` over a league table. -/
def posMapOfTable (tbl : List Row) : List (Option ℤ × ℤ) :=
  (tbl.enum).foldl (fun acc p => dictSet acc p.2.teamId ((p.1 : ℤ) + 1)) []

/-- Upsert a batch of `(key, value)` pairs into a dict in order. -/
def upsertAll {κ β : Type} [DecidableEq κ] (rep : List (κ × β)) (es : List (κ × β)) :
    List (κ × β) :=
  es.foldl (fun r q => dictSet r q.1 q.2) rep

/-- One league's evolution pass: expected positions from the strength sort,
finish positions from the final table, `n = max(len(teams), 1)`. -/
def evolveLeague {σ : Type} (R : RNG σ) (compId : ℤ) (teams : List Team)
    (data : LeagueResult) (s : σ) :
    List Team × List (Option String × ReportEntry) × σ :=
  let epMap := posMapOfTeams (List.insertionSort strengthDescLE teams)
  let fpMap := posMapOfTable data.table
  let n : ℤ := max (teams.length : ℤ) 1
  evolveTeams R compId n fpMap epMap teams s

/-- One `for comp_id, data in league_results.items()` iteration: skip unknown
or empty rosters, else evolve the league in place and upsert its report
entries. -/
def adjustStep {σ : Type} (R : RNG σ)
    (acc : List (ℤ × List Team) × List (Option String × ReportEntry) × σ)
    (p : ℤ × LeagueResult) :
    List (ℤ × List Team) × List (Option String × ReportEntry) × σ :=
  match dictFind acc.1 p.1 with
  | none => acc
  | some teams =>
    if teams.isEmpty then acc
    else
      let ev := evolveLeague R p.1 teams p.2 acc.2.2
      (dictSet acc.1 p.1 ev.1, upsertAll acc.2.1 ev.2.1, ev.2.2)

/-- `adjust_team_ratings_after_season`: evolve every league of the results
dict, returning the updated rosters and the change report. -/
def adjustRatings {σ : Type} (R : RNG σ) (compTeams : List (ℤ × List Team))
    (leagueResults : List (ℤ × LeagueResult)) (s : σ) :
    List (ℤ × List Team) × List (Option String × ReportEntry) × σ :=
  leagueResults.foldl (adjustStep R) (compTeams, [], s)

/-! ### Evolution keeps every attribute inside its declared clamp (C2) -/

/-- The attribute ranges of the data model after one evolution step. -/
def TeamBounds (t : Team) : Prop :=
  50 ≤ atkD t ∧ atkD t ≤ 99 ∧ 50 ≤ midD t ∧ midD t ≤ 99 ∧
  50 ≤ dfnD t ∧ dfnD t ≤ 99 ∧ 50 ≤ gkD t ∧ gkD t ≤ 99 ∧
  20 ≤ finD t ∧ finD t ≤ 100 ∧ 40 ≤ repD50 t ∧ repD50 t ≤ 100

instance TeamBounds.instDecidablePred : DecidablePred TeamBounds := fun t =>
  inferInstanceAs (Decidable (50 ≤ atkD t ∧ atkD t ≤ 99 ∧ 50 ≤ midD t ∧ midD t ≤ 99 ∧
    50 ≤ dfnD t ∧ dfnD t ≤ 99 ∧ 50 ≤ gkD t ∧ gkD t ≤ 99 ∧
    20 ≤ finD t ∧ finD t ≤ 100 ∧ 40 ≤ repD50 t ∧ repD50 t ≤ 100))

theorem finUpdate_mem {σ : Type} (R : RNG σ) (n fp ep oldF : ℤ) (s : σ) :
    20 ≤ (finUpdate R n fp ep oldF s).1 ∧ (finUpdate R n fp ep oldF s).1 ≤ 100 := by
  unfold finUpdate
  exact clampI_mem _ (by norm_num)

theorem gkBranchBound {σ : Type} {c : Prop} [Decidable c] {A B : ℤ} {p q : σ}
    (hB : 50 ≤ B ∧ B ≤ 99) :
    50 ≤ (if c then (clampI 50 99 A, p) else (B, q)).1 ∧
    (if c then (clampI 50 99 A, p) else (B, q)).1 ≤ 99 := by
  by_cases h : c
  · rw [if_pos h]
    exact clampI_mem _ (by norm_num)
  · rw [if_neg h]
    exact hB

theorem evolveTeam_bounds {σ : Type} (R : RNG σ) (compId n fp ep : ℤ) (t : Team) (s : σ)
    (hgk : 50 ≤ gkD t ∧ gkD t ≤ 99) :
    TeamBounds (evolveTeam R compId n fp ep t s).1 := by
  unfold TeamBounds evolveTeam
  dsimp only
  simp only [atkD, midD, dfnD, gkD, finD, repD50, Option.getD_some] at hgk ⊢
  exact ⟨(clampI_mem _ (by norm_num)).1, (clampI_mem _ (by norm_num)).2,
    (clampI_mem _ (by norm_num)).1, (clampI_mem _ (by norm_num)).2,
    (clampI_mem _ (by norm_num)).1, (clampI_mem _ (by norm_num)).2,
    (gkBranchBound hgk).1, (gkBranchBound hgk).2,
    (finUpdate_mem R _ _ _ _ _).1, (finUpdate_mem R _ _ _ _ _).2,
    (clampI_mem _ (by norm_num)).1, (clampI_mem _ (by norm_num)).2⟩

theorem evolveTeams_bounds {σ : Type} (R : RNG σ) (compId n : ℤ)
    (fpMap epMap : List (Option ℤ × ℤ)) :
    ∀ (teams : List Team) (s : σ), (∀ t ∈ teams, 50 ≤ gkD t ∧ gkD t ≤ 99) →
      ∀ t' ∈ (evolveTeams R compId n fpMap epMap teams s).1, TeamBounds t' := by
  intro teams
  induction teams with
  | nil => intro s _ t' h; cases h
  | cons t rest ih =>
    intro s h t' ht'
    simp only [evolveTeams] at ht'
    rcases List.mem_cons.mp ht' with rfl | h2
    · exact evolveTeam_bounds R compId n _ _ t s (h t (List.mem_cons_self _ _))
    · exact ih _ (fun x hx => h x (List.mem_cons_of_mem _ hx)) t' h2

theorem evolveLeague_bounds {σ : Type} (R : RNG σ) (compId : ℤ) (teams : List Team)
    (data : LeagueResult) (s : σ) (h : ∀ t ∈ teams, 50 ≤ gkD t ∧ gkD t ≤ 99) :
    ∀ t' ∈ (evolveLeague R compId teams data s).1, TeamBounds t' := by
  unfold evolveLeague
  exact evolveTeams_bounds R compId _ _ _ teams s h

/-! Dict helper facts. -/

theorem dictFind_mem {κ β : Type} [DecidableEq κ] :
    ∀ (l : List (κ × β)) (k : κ) (v : β), dictFind l k = some v → (k, v) ∈ l := by
  intro l
  induction l with
  | nil => intro k v h; cases h
  | cons p rest ih =>
    intro k v h
    obtain ⟨k', v'⟩ := p
    simp only [dictFind] at h
    by_cases he : k = k'
    · rw [if_pos he] at h
      cases h
      subst he
      exact List.mem_cons_self _ _
    · rw [if_neg he] at h
      exact List.mem_cons_of_mem _ (ih k v h)

theorem mem_dictSet {κ β : Type} [DecidableEq κ] :
    ∀ (l : List (κ × β)) (k : κ) (v : β) (p : κ × β),
      p ∈ dictSet l k v → p = (k, v) ∨ p ∈ l := by
  intro l
  induction l with
  | nil =>
    intro k v p h
    rcases List.mem_cons.mp h with rfl | h2
    · exact Or.inl rfl
    · cases h2
  | cons q rest ih =>
    intro k v p h
    obtain ⟨k', v'⟩ := q
    simp only [dictSet] at h
    by_cases he : k = k'
    · rw [if_pos he] at h
      rcases List.mem_cons.mp h with rfl | h2
      · exact Or.inl rfl
      · exact Or.inr (List.mem_cons_of_mem _ h2)
    · rw [if_neg he] at h
      rcases List.mem_cons.mp h with rfl | h2
      · exact Or.inr (List.mem_cons_self _ _)
      · rcases ih k v p h2 with h3 | h3
        · exact Or.inl h3
        · exact Or.inr (List.mem_cons_of_mem _ h3)

theorem dictFind_dictSet_self {κ β : Type} [DecidableEq κ] :
    ∀ (l : List (κ × β)) (k : κ) (v : β), dictFind (dictSet l k v) k = some v := by
  intro l
  induction l with
  | nil => intro k v; simp [dictSet, dictFind]
  | cons q rest ih =>
    intro k v
    obtain ⟨k', v'⟩ := q
    simp only [dictSet]
    by_cases he : k = k'
    · rw [if_pos he]
      simp [dictFind]
    · rw [if_neg he]
      simp only [dictFind, if_neg he]
      exact ih k v

theorem dictFind_dictSet_ne {κ β : Type} [DecidableEq κ] {k k' : κ} (hne : k' ≠ k) :
    ∀ (l : List (κ × β)) (v : β), dictFind (dictSet l k v) k' = dictFind l k' := by
  intro l
  induction l with
  | nil => intro v; simp [dictSet, dictFind, if_neg hne]
  | cons q rest ih =>
    intro v
    obtain ⟨k2, v2⟩ := q
    simp only [dictSet]
    by_cases he : k = k2
    · rw [if_pos he]
      subst he
      simp only [dictFind, if_neg hne]
    · rw [if_neg he]
      simp only [dictFind]
      by_cases he2 : k' = k2
      · rw [if_pos he2, if_pos he2]
      · rw [if_neg he2, if_neg he2]
        exact ih v

/-- Goalkeeping ranges of every roster of a competition dict. -/
def GkBounded (l : List (ℤ × List Team)) : Prop :=
  ∀ p ∈ l, ∀ t ∈ p.2, 50 ≤ gkD t ∧ gkD t ≤ 99

theorem adjustStep_gk {σ : Type} (R : RNG σ)
    (acc : List (ℤ × List Team) × List (Option String × ReportEntry) × σ)
    (p : ℤ × LeagueResult) (h : GkBounded acc.1) : GkBounded (adjustStep R acc p).1 := by
  unfold adjustStep
  rcases hf : dictFind acc.1 p.1 with _ | teams
  · simpa [hf] using h
  · simp only [hf]
    by_cases hemp : teams.isEmpty
    · simpa [hemp] using h
    · simp only [hemp, Bool.false_eq_true, if_false]
      intro q hq t ht
      rcases mem_dictSet _ _ _ q hq with rfl | h2
      · have hb := evolveLeague_bounds R p.1 teams p.2 acc.2.2
          (fun x hx => h _ (dictFind_mem _ _ _ hf) x hx) t ht
        exact ⟨hb.2.2.2.2.2.2.1, hb.2.2.2.2.2.2.2.1⟩
      · exact h q h2 t ht

/-- The per-key report/roster consequence tracked through the fold. -/
def CompBounded (cid : ℤ) (l : List (ℤ × List Team)) : Prop :=
  ∀ teams', dictFind l cid = some teams' → ∀ t' ∈ teams', TeamBounds t'

theorem adjustStep_compBounded {σ : Type} (R : RNG σ) {cid : ℤ}
    (acc : List (ℤ × List Team) × List (Option String × ReportEntry) × σ)
    (p : ℤ × LeagueResult) (hg : GkBounded acc.1) (h : CompBounded cid acc.1) :
    CompBounded cid (adjustStep R acc p).1 := by
  unfold adjustStep
  rcases hf : dictFind acc.1 p.1 with _ | teams
  · simpa [hf] using h
  · simp only [hf]
    by_cases hemp : teams.isEmpty
    · simpa [hemp] using h
    · simp only [hemp, Bool.false_eq_true, if_false]
      intro teams' hfind t' ht'
      by_cases hc : cid = p.1
      · subst hc
        rw [dictFind_dictSet_self] at hfind
        cases hfind
        exact evolveLeague_bounds R p.1 teams p.2 acc.2.2
          (fun x hx => hg _ (dictFind_mem _ _ _ hf) x hx) t' ht'
      · rw [dictFind_dictSet_ne hc] at hfind
        exact h teams' hfind t' ht'

theorem adjustStep_establishes {σ : Type} (R : RNG σ)
    (acc : List (ℤ × List Team) × List (Option String × ReportEntry) × σ)
    (p : ℤ × LeagueResult) (hg : GkBounded acc.1) :
    CompBounded p.1 (adjustStep R acc p).1 := by
  unfold adjustStep
  rcases hf : dictFind acc.1 p.1 with _ | teams
  · simp only [hf]
    intro teams' hfind t' ht'
    rw [hf] at hfind
    cases hfind
  · simp only [hf]
    by_cases hemp : teams.isEmpty
    · simp only [hemp, if_true]
      intro teams' hfind t' ht'
      rw [hf] at hfind
      cases hfind
      rw [List.isEmpty_iff] at hemp
      subst hemp
      cases ht'
    · simp only [hemp, Bool.false_eq_true, if_false]
      intro teams' hfind t' ht'
      rw [dictFind_dictSet_self] at hfind
      cases hfind
      exact evolveLeague_bounds R p.1 teams p.2 acc.2.2
        (fun x hx => hg _ (dictFind_mem _ _ _ hf) x hx) t' ht'

theorem adjustFold_gk {σ : Type} (R : RNG σ) :
    ∀ (l : List (ℤ × LeagueResult))
      (acc : List (ℤ × List Team) × List (Option String × ReportEntry) × σ),
      GkBounded acc.1 → GkBounded (l.foldl (adjustStep R) acc).1 := by
  intro l
  induction l with
  | nil => intro acc h; exact h
  | cons p rest ih =>
    intro acc h
    exact ih _ (adjustStep_gk R acc p h)

theorem adjustFold_compBounded {σ : Type} (R : RNG σ) {cid : ℤ} :
    ∀ (l : List (ℤ × LeagueResult))
      (acc : List (ℤ × List Team) × List (Option String × ReportEntry) × σ),
      GkBounded acc.1 → CompBounded cid acc.1 →
      CompBounded cid (l.foldl (adjustStep R) acc).1 := by
  intro l
  induction l with
  | nil => intro acc _ h; exact h
  | cons p rest ih =>
    intro acc hg h
    exact ih _ (adjustStep_gk R acc p hg) (adjustStep_compBounded R acc p hg h)

/-- C2: after the rating-evolution pass, every team of every processed league
has attack, midfield, defense and goalkeeping in `[50, 99]`, financial in
`[20, 100]` and reputationFactor in `[40, 100]`, for every generator outcome.
The goalkeeping hypothesis on the input rosters reflects the data-model
invariant; it is needed because the 80%-probability branch leaves goalkeeping
unchanged, while every other attribute is unconditionally clamped. -/
theorem rating_evolution_bounds {σ : Type} (R : RNG σ)
    (compTeams : List (ℤ × List Team)) (results : List (ℤ × LeagueResult)) (s : σ)
    (hgk : ∀ p ∈ compTeams, ∀ t ∈ p.2, 50 ≤ gkD t ∧ gkD t ≤ 99) :
    ∀ p ∈ results, ∀ teams',
      dictFind (adjustRatings R compTeams results s).1 p.1 = some teams' →
      ∀ t' ∈ teams', TeamBounds t' := by
  intro p hp
  unfold adjustRatings
  induction results generalizing compTeams s with
  | nil => cases hp
  | cons q rest ih =>
    rcases List.mem_cons.mp hp with rfl | h2
    · rw [List.foldl_cons]
      exact adjustFold_compBounded R rest _
        (adjustStep_gk R (compTeams, [], s) p hgk)
        (adjustStep_establishes R (compTeams, [], s) p hgk)
    · rw [List.foldl_cons]
      -- continue the fold from the accumulator after the first step
      have hg2 : GkBounded (adjustStep R (compTeams, ([], s)) q).1 :=
        adjustStep_gk R (compTeams, [], s) q hgk
      -- the remaining fold starts from an arbitrary accumulator; redo the
      -- induction with a general accumulator
      clear ih
      have main : ∀ (l : List (ℤ × LeagueResult))
          (acc : List (ℤ × List Team) × List (Option String × ReportEntry) × σ),
          GkBounded acc.1 → p ∈ l → ∀ teams',
            dictFind (l.foldl (adjustStep R) acc).1 p.1 = some teams' →
            ∀ t' ∈ teams', TeamBounds t' := by
        intro l
        induction l with
        | nil => intro acc _ hmem; cases hmem
        | cons q2 rest2 ih2 =>
          intro acc hacc hmem
          rcases List.mem_cons.mp hmem with rfl | hmem2
          · rw [List.foldl_cons]
            exact adjustFold_compBounded R rest2 _
              (adjustStep_gk R acc p hacc)
              (adjustStep_establishes R acc p hacc)
          · rw [List.foldl_cons]
            exact ih2 _ (adjustStep_gk R acc q2 hacc) hmem2
      exact main rest _ hg2 h2

/-! ### Financial update structure (C7) -/

/-- C7 (amended): the per-team financial update draws noise in `[-3, 3]`, a
takeover fires on a 1.5% `random()` draw and adds a `randint(20, 40)` boost to
the prize+performance+noise sum BEFORE the clamp to `[-20, 30]` (so the
applied delta never exceeds 30, takeover or not), and the result is floored at
20 and capped at 100. -/
theorem finUpdate_spec {σ : Type} {R : RNG σ} (hR : RNGValid R)
    (n fp ep oldF : ℤ) (s : σ) :
    (-3 ≤ (R.randint (-3) 3 s).1 ∧ (R.randint (-3) 3 s).1 ≤ 3) ∧
    ((R.rand (R.randint (-3) 3 s).2).1 < 0.015 →
      20 ≤ (R.randint 20 40 (R.rand (R.randint (-3) 3 s).2).2).1 ∧
      (R.randint 20 40 (R.rand (R.randint (-3) 3 s).2).2).1 ≤ 40) ∧
    (finUpdate R n fp ep oldF s).2.1 =
      decide ((R.rand (R.randint (-3) 3 s).2).1 < 0.015) ∧
    (finUpdate R n fp ep oldF s).1 =
      clampI 20 100 (oldF + clampI (-20) 30
        (pyInt (((n - fp + 1 : ℤ) : ℚ) / ((n : ℤ) : ℚ) * 10) +
         pyInt (((ep - fp : ℤ) : ℚ) / ((max 1 (n - 1) : ℤ) : ℚ) * 5) +
         (R.randint (-3) 3 s).1 +
         (if (R.rand (R.randint (-3) 3 s).2).1 < 0.015 then
            (R.randint 20 40 (R.rand (R.randint (-3) 3 s).2).2).1 else 0))) := by
  refine ⟨hR.randint_mem (-3) 3 s (by norm_num),
    fun _ => hR.randint_mem 20 40 _ (by norm_num), ?_, ?_⟩
  · unfold finUpdate
    dsimp only
    by_cases hc : (R.rand (R.randint (-3) 3 s).2).1 < 0.015
    · rw [if_pos hc]
      simp [hc]
    · rw [if_neg hc]
      simp [hc]
  · unfold finUpdate
    dsimp only
    by_cases hc : (R.rand (R.randint (-3) 3 s).2).1 < 0.015
    · rw [if_pos hc, if_pos hc]
    · rw [if_neg hc, if_neg hc]

/-- C7 witness: the amended financial-update law instantiated at a concrete
input with the trivial generator (whose `random()` is 0, so the takeover
fires and its boost is 20). -/
theorem finUpdate_spec_witness :
    (-3 ≤ (idRng.randint (-3) 3 ()).1 ∧ (idRng.randint (-3) 3 ()).1 ≤ 3) ∧
    ((idRng.rand (idRng.randint (-3) 3 ()).2).1 < 0.015 →
      20 ≤ (idRng.randint 20 40 (idRng.rand (idRng.randint (-3) 3 ()).2).2).1 ∧
      (idRng.randint 20 40 (idRng.rand (idRng.randint (-3) 3 ()).2).2).1 ≤ 40) ∧
    (finUpdate idRng 2 1 2 20 ()).2.1 =
      decide ((idRng.rand (idRng.randint (-3) 3 ()).2).1 < 0.015) ∧
    (finUpdate idRng 2 1 2 20 ()).1 =
      clampI 20 100 (20 + clampI (-20) 30
        (pyInt (((2 - 1 + 1 : ℤ) : ℚ) / ((2 : ℤ) : ℚ) * 10) +
         pyInt (((2 - 1 : ℤ) : ℚ) / ((max 1 (2 - 1) : ℤ) : ℚ) * 5) +
         (idRng.randint (-3) 3 ()).1 +
         (if (idRng.rand (idRng.randint (-3) 3 ()).2).1 < 0.015 then
            (idRng.randint 20 40 (idRng.rand (idRng.randint (-3) 3 ()).2).2).1 else 0))) :=
  finUpdate_spec idRng_valid 2 1 2 20 ()

/-- The claim's financial pipeline read in its stated order: the
prize+performance+noise total is clamped to `[-20, 30]` first, the takeover
boost is added afterwards, then the floor at 20 and cap at 100. -/
def claimFinancial (oldF prize perf noise boost : ℤ) : ℤ :=
  clampI 20 100 (oldF + (clampI (-20) 30 (prize + perf + noise) + boost))

/-- A deterministic generator scripted by draw position, staging a takeover
(its `random()` draw at position 16 returns 0 < 0.015) with boost 40 and
financial noise 3, all inside Python's guaranteed ranges. -/
def scriptRng : RNG ℕ where
  rand := fun s => ((if s = 16 then 0 else 1/2 : ℚ), s + 1)
  shuffle := fun l s => (l, s + 1)
  randint := fun _ _ s => ((if s = 15 then 3 else if s = 17 then 40 else 0 : ℤ), s + 1)
  uniform := fun _ _ s => (0, s + 1)
  poisson := fun _ s => (0, s + 1)

/-- The stronger team, expected first but finishing second. -/
def teamAx : Team :=
  { teamId := some 1, teamName := some "A", attack := some 90, midfield := some 90,
    defense := some 90, goalkeeping := some 90, culture := some 50,
    financial := some 80, reputationFactor := some 60, devRate := some 5 }

/-- The weaker team, finishing first on financial 20, hit by the takeover. -/
def teamXx : Team :=
  { teamId := some 2, teamName := some "X", attack := some 60, midfield := some 60,
    defense := some 60, goalkeeping := some 60, culture := some 50,
    financial := some 20, reputationFactor := some 55, devRate := some 5 }

/-- The league table of the counterexample: team 2 first, team 1 second. -/
def resultCx : LeagueResult :=
  { fixtures := [], table := [{ teamId := some 2 }, { teamId := some 1 }] }

/-- C7 counterexample: with the scripted takeover, the code clamps the
boosted sum `10 + 5 + 3 + 40` to 30 and yields financial `20 + 30 = 50`,
whereas the claim's order — clamp `10 + 5 + 3` to `[-20, 30]` first, then add
the boost 40 — yields `clamp(20 + (18 + 40)) = 78 ≠ 50`. -/
theorem financial_takeover_order_counterexample :
    pyInt (((2 - 1 + 1 : ℤ) : ℚ) / ((2 : ℤ) : ℚ) * 10) = 10 ∧
    pyInt (((2 - 1 : ℤ) : ℚ) / ((max 1 (2 - 1) : ℤ) : ℚ) * 5) = 5 ∧
    claimFinancial 20 10 5 3 40 = 78 ∧
    ((adjustRatings scriptRng [(1, [teamAx, teamXx])] [(1, resultCx)] 0).1.map
      (fun p => p.2.map Team.financial)) = [[some 80, some 50]] ∧
    (dictFind (adjustRatings scriptRng [(1, [teamAx, teamXx])] [(1, resultCx)] 0).2.1
      (some "X")).map ReportEntry.takeover = some true ∧
    (some 50 : Option ℤ) ≠ some (claimFinancial 20 10 5 3 40) := by
  refine ⟨by with_unfolding_all decide, by with_unfolding_all decide,
    by with_unfolding_all decide, by with_unfolding_all decide,
    by with_unfolding_all decide, by with_unfolding_all decide⟩

/-! ### Change report keyed by team name (C10) -/

theorem dictFind_append {κ β : Type} [DecidableEq κ] :
    ∀ (l1 l2 : List (κ × β)) (k : κ),
      dictFind (l1 ++ l2) k = (dictFind l1 k).or (dictFind l2 k) := by
  intro l1
  induction l1 with
  | nil => intro l2 k; simp [dictFind]
  | cons p rest ih =>
    intro l2 k
    obtain ⟨k', v⟩ := p
    simp only [List.cons_append, dictFind]
    by_cases he : k = k'
    · rw [if_pos he, if_pos he]
      rfl
    · rw [if_neg he, if_neg he]
      exact ih l2 k

theorem dictFind_upsertAll {κ β : Type} [DecidableEq κ] :
    ∀ (es rep : List (κ × β)) (k : κ),
      dictFind (upsertAll rep es) k = (dictFind es.reverse k).or (dictFind rep k) := by
  intro es
  induction es with
  | nil => intro rep k; simp [upsertAll, dictFind]
  | cons e es ih =>
    intro rep k
    obtain ⟨ke, ve⟩ := e
    have hstep : upsertAll rep ((ke, ve) :: es) = upsertAll (dictSet rep ke ve) es := rfl
    rw [hstep, ih]
    rw [List.reverse_cons, dictFind_append, Option.or_assoc]
    rcases hfe : dictFind es.reverse k with _ | v
    · simp only [Option.none_or]
      by_cases he : k = ke
      · subst he
        rw [dictFind_dictSet_self]
        simp [dictFind]
      · rw [dictFind_dictSet_ne he]
        simp [dictFind, if_neg he]
    · rfl

theorem keys_mem_dictSet {κ β : Type} [DecidableEq κ] {l : List (κ × β)} {k x : κ} {v : β}
    (h : x ∈ (dictSet l k v).map Prod.fst) : x ∈ l.map Prod.fst ∨ x = k := by
  rw [List.mem_map] at h
  obtain ⟨p, hp, rfl⟩ := h
  rcases mem_dictSet l k v p hp with rfl | h2
  · exact Or.inr rfl
  · exact Or.inl (List.mem_map_of_mem _ h2)

theorem dictSet_keys_nodup {κ β : Type} [DecidableEq κ] :
    ∀ (l : List (κ × β)) (k : κ) (v : β), (l.map Prod.fst).Nodup →
      ((dictSet l k v).map Prod.fst).Nodup := by
  intro l
  induction l with
  | nil => intro k v _; simp [dictSet]
  | cons p rest ih =>
    intro k v h
    obtain ⟨k', v'⟩ := p
    rw [List.map_cons, List.nodup_cons] at h
    simp only [dictSet]
    by_cases he : k = k'
    · rw [if_pos he]
      subst he
      rw [List.map_cons, List.nodup_cons]
      exact h
    · rw [if_neg he]
      rw [List.map_cons, List.nodup_cons]
      refine ⟨?_, ih k v h.2⟩
      intro hmem
      rcases keys_mem_dictSet hmem with h2 | h2
      · exact h.1 h2
      · exact he h2.symm

theorem upsertAll_keys_nodup {κ β : Type} [DecidableEq κ] :
    ∀ (es rep : List (κ × β)), (rep.map Prod.fst).Nodup →
      ((upsertAll rep es).map Prod.fst).Nodup := by
  intro es
  induction es with
  | nil => intro rep h; exact h
  | cons e es ih =>
    intro rep h
    exact ih _ (dictSet_keys_nodup rep e.1 e.2 h)

theorem adjustStep_keys_nodup {σ : Type} (R : RNG σ)
    (acc : List (ℤ × List Team) × List (Option String × ReportEntry) × σ)
    (p : ℤ × LeagueResult) (h : (acc.2.1.map Prod.fst).Nodup) :
    (((adjustStep R acc p).2.1).map Prod.fst).Nodup := by
  unfold adjustStep
  rcases hf : dictFind acc.1 p.1 with _ | teams
  · simpa using h
  · simp only
    by_cases hemp : teams.isEmpty
    · simpa [hemp] using h
    · simp only [hemp, Bool.false_eq_true, if_false]
      exact upsertAll_keys_nodup _ _ h

theorem adjustRatings_keys_nodup {σ : Type} (R : RNG σ)
    (compTeams : List (ℤ × List Team)) (results : List (ℤ × LeagueResult)) (s : σ) :
    (((adjustRatings R compTeams results s).2.1).map Prod.fst).Nodup := by
  unfold adjustRatings
  have main : ∀ (l : List (ℤ × LeagueResult))
      (acc : List (ℤ × List Team) × List (Option String × ReportEntry) × σ),
      (acc.2.1.map Prod.fst).Nodup →
      (((l.foldl (adjustStep R) acc).2.1).map Prod.fst).Nodup := by
    intro l
    induction l with
    | nil => intro acc h; exact h
    | cons p rest ih =>
      intro acc h
      exact ih _ (adjustStep_keys_nodup R acc p h)
  exact main results (compTeams, [], s) (by simp)

theorem evolveTeams_keys {σ : Type} (R : RNG σ) (compId n : ℤ)
    (fpMap epMap : List (Option ℤ × ℤ)) :
    ∀ (teams : List Team) (s : σ),
      ((evolveTeams R compId n fpMap epMap teams s).2.1).map Prod.fst =
        teams.map Team.teamName := by
  intro teams
  induction teams with
  | nil => intro s; rfl
  | cons t rest ih =>
    intro s
    simp only [evolveTeams, List.map_cons, ih]

/-- C10: the change report is keyed by team name, not team id.  The entry
sequence of an evolution pass carries exactly one `(teamName, entry)` pair per
team in processing order; the report is the in-order upsert of those pairs,
so its keys are pairwise distinct and a lookup returns the last entry written
for a name — for two distinct teams with equal `teamName`s the report holds
exactly one entry for that name, the later-processed team's. -/
theorem change_report_keyed_by_name {σ : Type} (R : RNG σ)
    (compTeams : List (ℤ × List Team)) (results : List (ℤ × LeagueResult))
    (compId n : ℤ) (fpMap epMap : List (Option ℤ × ℤ)) (teams : List Team)
    (cid : ℤ) (data : LeagueResult) (s s2 s3 : σ) (k : Option String) :
    (((adjustRatings R compTeams results s).2.1).map Prod.fst).Nodup ∧
    ((evolveTeams R compId n fpMap epMap teams s2).2.1).map Prod.fst =
      teams.map Team.teamName ∧
    (teams ≠ [] →
      dictFind (adjustRatings R [(cid, teams)] [(cid, data)] s3).2.1 k =
        dictFind ((evolveLeague R cid teams data s3).2.1).reverse k) := by
  refine ⟨adjustRatings_keys_nodup R compTeams results s,
    evolveTeams_keys R compId n fpMap epMap teams s2, ?_⟩
  intro hne
  have hemp : teams.isEmpty = false := by
    cases teams
    · exact absurd rfl hne
    · rfl
  have hfind : dictFind [(cid, teams)] cid = some teams := by
    simp [dictFind]
  show dictFind (adjustStep R ([(cid, teams)], [], s3) (cid, data)).2.1 k = _
  unfold adjustStep
  rw [hfind]
  simp only [hemp, Bool.false_eq_true, if_false]
  rw [dictFind_upsertAll]
  simp [dictFind]

/-- Two distinct teams sharing the name `"Dup"`. -/
def dupA : Team :=
  { teamId := some 1, teamName := some "Dup", attack := some 80, midfield := some 80,
    defense := some 80, goalkeeping := some 80, culture := some 50,
    financial := some 50, reputationFactor := some 50, devRate := some 5 }

/-- The second team named `"Dup"`. -/
def dupB : Team :=
  { teamId := some 2, teamName := some "Dup", attack := some 60, midfield := some 60,
    defense := some 60, goalkeeping := some 60, culture := some 50,
    financial := some 50, reputationFactor := some 50, devRate := some 5 }

/-- The league table for the duplicate-name witness. -/
def resultDup : LeagueResult :=
  { fixtures := [], table := [{ teamId := some 1 }, { teamId := some 2 }] }

/-- C10 witness: for the two teams named `"Dup"`, the report lookup equals
the last processed entry for that name. -/
theorem change_report_keyed_by_name_witness :
    dictFind (adjustRatings idRng [(1, [dupA, dupB])] [(1, resultDup)] ()).2.1
        (some "Dup") =
      dictFind ((evolveLeague idRng 1 [dupA, dupB] resultDup ()).2.1).reverse
        (some "Dup") :=
  (change_report_keyed_by_name idRng [] [] 1 2 [] [] [dupA, dupB] 1 resultDup
    () () () (some "Dup")).2.2 (by decide)

/-! ## Season orchestrator (`run_season`) -/

/-- The world registry consumed by `run_season` (`COMP_TEAMS`, `COMP_FORMAT`,
`COMP_TIER`, `CURRENT_SEASON`). -/
structure World where
  compTeams : List (ℤ × List Team)
  compFormat : List (ℤ × ℤ)
  compTier : List (ℤ × ℤ)
  currentSeason : ℤ

/-- The four result structures a season produces. -/
structure SeasonOut where
  leagues : List (ℤ × LeagueResult)
  cups : List (ℤ × CupResult)
  continentals : List (ℤ × ContResult)
  report : List (Option String × ReportEntry)
deriving DecidableEq

/-- `run_season`: filter the competitions by format, simulate leagues, cups
and continental competitions, evolve the ratings, and advance the season
counter.  The `_RATING_CACHE.clear()` call is a no-op for the pure rating
function; the display, history-recording and season-statistics calls of the
source draw no randomness and contribute nothing to the returned results, and
are not modelled. -/
def runSeason {σ : Type} (R : RNG σ) (runCups runContinental : Bool)
    (w : World) (s : σ) : SeasonOut × World × σ :=
  let leagueInput := w.compTeams.filter fun p => dictFind w.compFormat p.1 == some 0
  let cupInput := w.compTeams.filter fun p => dictFind w.compFormat p.1 == some 1
  let contInput := w.compTeams.filter fun p => dictFind w.compFormat p.1 == some 5
  let lr := simSeason R leagueInput s
  let cr := if runCups ∧ cupInput ≠ [] then simCups R w.compTier lr.1 cupInput lr.2
            else ([], lr.2)
  let xr := if runContinental ∧ contInput ≠ [] then simContinental R lr.1 contInput cr.2
            else ([], cr.2)
  let ar := adjustRatings R w.compTeams lr.1 xr.2
  ({ leagues := lr.1, cups := cr.1, continentals := xr.1, report := ar.2.1 },
   { w with compTeams := ar.1, currentSeason := w.currentSeason + 1 }, ar.2.2)

/-- C5: with the generator state and the world state fixed, the season
pipeline — fixtures, league tables, bracket rounds and rating deltas — is a
deterministic function: two runs from equal inputs produce identical outputs.
In this embedding every stochastic draw threads one explicit generator state
in the fixed order the source consumes them, so reproducibility holds by
construction of the embedding. -/
theorem run_season_deterministic {σ : Type} (R : RNG σ) (rc rk : Bool)
    (w₁ w₂ : World) (s₁ s₂ : σ) (hw : w₁ = w₂) (hs : s₁ = s₂) :
    (runSeason R rc rk w₁ s₁).1.leagues = (runSeason R rc rk w₂ s₂).1.leagues ∧
    (runSeason R rc rk w₁ s₁).1.cups = (runSeason R rc rk w₂ s₂).1.cups ∧
    (runSeason R rc rk w₁ s₁).1.continentals =
      (runSeason R rc rk w₂ s₂).1.continentals ∧
    (runSeason R rc rk w₁ s₁).1.report = (runSeason R rc rk w₂ s₂).1.report ∧
    runSeason R rc rk w₁ s₁ = runSeason R rc rk w₂ s₂ := by
  subst hw
  subst hs
  exact ⟨rfl, rfl, rfl, rfl, rfl⟩

/-- A two-team one-league world for witnesses. -/
def worldW : World :=
  { compTeams := [(1, [mkTeam 1 "T1", mkTeam 2 "T2"])],
    compFormat := [(1, 0)], compTier := [(1, 1)], currentSeason := 0 }

/-- C5 witness: determinism instantiated on a concrete world and generator. -/
theorem run_season_deterministic_witness :
    (runSeason idRng true true worldW ()).1.leagues =
      (runSeason idRng true true worldW ()).1.leagues ∧
    (runSeason idRng true true worldW ()).1.cups =
      (runSeason idRng true true worldW ()).1.cups ∧
    (runSeason idRng true true worldW ()).1.continentals =
      (runSeason idRng true true worldW ()).1.continentals ∧
    (runSeason idRng true true worldW ()).1.report =
      (runSeason idRng true true worldW ()).1.report ∧
    runSeason idRng true true worldW () = runSeason idRng true true worldW () :=
  run_season_deterministic idRng true true worldW worldW () () rfl rfl

/-! ## Remaining concrete witnesses -/

/-- Two equal-strength teams. -/
def teamsTwo : List Team := [mkTeam 1 "T1", mkTeam 2 "T2"]

/-- The table row the two-team league produces for team 1 (both matches end
0–0 under the trivial generator). -/
def rowW1 : Row :=
  { teamId := some 1, teamName := "T1", played := 2, wins := 0, draws := 2,
    losses := 0, gf := 0, ga := 0, gd := 0, points := 2,
    reputationFactor := some 50 }

/-- The corresponding row for team 2. -/
def rowW2 : Row :=
  { teamId := some 2, teamName := "T2", played := 2, wins := 0, draws := 2,
    losses := 0, gf := 0, ga := 0, gd := 0, points := 2,
    reputationFactor := some 50 }

/-- C4 witness: the ordering theorem instantiated on the concrete two-team
league; the two rows have equal sort keys, and the stability clause keeps
them in input order. -/
theorem league_table_order_witness :
    ((simSeasonOne idRng teamsTwo ()).1.table).Perm (leaguePreTable idRng teamsTwo ()) ∧
    List.Sorted rowLE ((simSeasonOne idRng teamsTwo ()).1.table) ∧
    List.Sublist [rowW1, rowW2] ((simSeasonOne idRng teamsTwo ()).1.table) := by
  obtain ⟨h1, h2, h3⟩ := league_table_order idRng teamsTwo ()
  have he : leaguePreTable idRng teamsTwo () = [rowW1, rowW2] := by
    with_unfolding_all decide
  exact ⟨h1, h2, h3 rowW1 rowW2 (by decide) (he ▸ List.Sublist.refl _)⟩

instance : Inhabited GroupResult := ⟨⟨"", []⟩⟩

instance : Inhabited CupMatch := ⟨⟨"", "", 0, 0, ""⟩⟩

instance : Inhabited CupRound := ⟨⟨"", []⟩⟩

/-- Eight equal-strength continental entrants. -/
def teamsEight : List Team :=
  [mkTeam 1 "C1", mkTeam 2 "C2", mkTeam 3 "C3", mkTeam 4 "C4",
   mkTeam 5 "C5", mkTeam 6 "C6", mkTeam 7 "C7", mkTeam 8 "C8"]

/-- Two reputation-free rows with distinct keys. -/
def rowsW : List Row := [{ points := 3 }, { points := 6 }]

/-- C6 witness: the first group table of a concrete 8-team continental run is
sorted by the league ordering, and the two sorting functions agree on a
concrete reputation-free table. -/
theorem continental_group_sort_witness :
    List.Sorted rowLE (((simContinentalOne idRng teamsEight ()).1.groups).headI.table) ∧
    List.insertionSort rowLE rowsW = List.insertionSort contRowLE rowsW := by
  obtain ⟨h1, h2⟩ := continental_group_sort_matches_league idRng teamsEight ()
  exact ⟨(h1 _ (by with_unfolding_all decide)).1, h2 rowsW (by decide)⟩

/-- C9 witness: the first recorded match of the concrete 6-team cup and of
the concrete 8-team continental knockout are decisive. -/
theorem knockout_matches_never_tie_witness :
    ((((simCupsOne idRng [] teamsSix ()).1.rounds).headI.«matches»).headI.home_goals ≠
      (((simCupsOne idRng [] teamsSix ()).1.rounds).headI.«matches»).headI.away_goals) ∧
    ((((simContinentalOne idRng teamsEight ()).1.rounds).headI.«matches»).headI.home_goals ≠
      (((simContinentalOne idRng teamsEight ()).1.rounds).headI.«matches»).headI.away_goals) := by
  obtain ⟨h1, h2⟩ := knockout_matches_never_tie idRng [] teamsSix teamsEight () ()
  exact ⟨h1 (((simCupsOne idRng [] teamsSix ()).1.rounds).headI)
      (by with_unfolding_all decide)
      ((((simCupsOne idRng [] teamsSix ()).1.rounds).headI.«matches»).headI)
      (by with_unfolding_all decide),
    h2 (((simContinentalOne idRng teamsEight ()).1.rounds).headI)
      (by with_unfolding_all decide)
      ((((simContinentalOne idRng teamsEight ()).1.rounds).headI.«matches»).headI)
      (by with_unfolding_all decide)⟩

/-- Team `teamAx` after the evolution pass under the trivial generator. -/
def teamAxEvolved : Team :=
  { teamId := some 1, teamName := some "A", attack := some 80, midfield := some 80,
    defense := some 80, goalkeeping := some 82, culture := some 50,
    financial := some 97, reputationFactor := some 56, devRate := some 5 }

/-- Team `teamXx` after the evolution pass under the trivial generator. -/
def teamXxEvolved : Team :=
  { teamId := some 2, teamName := some "X", attack := some 67, midfield := some 67,
    defense := some 67, goalkeeping := some 63, culture := some 50,
    financial := some 50, reputationFactor := some 56, devRate := some 5 }

/-- C2 witness: the bounds theorem instantiated on the concrete two-team
league; the first evolved team satisfies every clamp. -/
theorem rating_evolution_bounds_witness :
    TeamBounds teamAxEvolved := by
  have hfind : dictFind (adjustRatings idRng [(1, [teamAx, teamXx])]
      [(1, resultCx)] ()).1 1 = some [teamAxEvolved, teamXxEvolved] := by
    with_unfolding_all decide
  exact rating_evolution_bounds idRng [(1, [teamAx, teamXx])] [(1, resultCx)] ()
    (by decide) (1, resultCx) (by decide) [teamAxEvolved, teamXxEvolved] hfind
    teamAxEvolved (by decide)

end FootballSim
